import Mathlib

/-!
Verification of the symbol-indexing and architecture-analysis core of the
`code_understand` repository (files `backend/app/core/indexer.py`,
`backend/app/core/arch_analyzer.py`, `backend/app/db/models.py`).

The Python code is shallowly embedded:

* the SQLAlchemy session is a pair of database states (`Session.cur` is the
  session's current view including pending writes, `Session.saved` is the last
  committed state; `commit` copies `cur` into `saved`, `rollback` restores
  `cur` from `saved`);
* libclang cursors are the inductive `Node`; the fields mirror exactly the
  cursor attributes the Python reads (kind, spelling, displayname, usr,
  location file/line/column, token spellings, extent text, extent end line,
  is_definition, storage class, `get_definition()`, `referenced`, children).
  `srcText` is the verbatim source text that `get_symbol_signature`
  reconstructs from the extent, `none` when the extent's file is unavailable,
  spans two files, or reading raises (the fallback path).  `raises : Bool`
  marks a node whose processing raises an exception in the external
  collaborators (store or front-end); it models the "the AST traversal
  raises" hypothesis of the spec's failure-handling clause;
* `os.path.abspath` is the identity (all paths are taken already absolute),
  `os.sep` is "/", `os.walk` and `compile_commands.json` handling are
  replaced by an explicit job list handed to `scan_project`;
* the networkx calls (`DiGraph`, `strongly_connected_components`,
  `topological_sort`, `is_directed_acyclic_graph`, `condensation`) are
  external library calls; they are modelled here by executable definitions
  with the library's documented meaning (insertion-ordered node/edge lists
  with duplicate suppression, Kahn's algorithm, bounded closure for
  reachability).
-/

/-- `SymbolType` of `models.py` (only members the indexer can store).  The
Python member `MACRO` is spelled `macroSym` here. -/
inductive SymbolType where
  | function | variable | struct | typedef | macroSym | field | enum | union
deriving DecidableEq, Repr

/-- `RefType` of `models.py` (members the indexer creates). -/
inductive RefType where
  | call | read | write
deriving DecidableEq, Repr

/-- `ScanStatus` of `models.py`. -/
inductive ScanStatus where
  | pending | scanning | completed | failed
deriving DecidableEq, Repr

/-- The libclang `CursorKind`s the indexer inspects; `otherKind` stands for
every kind the code does not single out. -/
inductive CKind where
  | FUNCTION_DECL | VAR_DECL | STRUCT_DECL | TYPEDEF_DECL | FIELD_DECL
  | PARM_DECL | ENUM_DECL | UNION_DECL | MACRO_DEFINITION
  | CALL_EXPR | DECL_REF_EXPR | MEMBER_REF_EXPR
  | BINARY_OPERATOR | COMPOUND_ASSIGNMENT_OPERATOR
  | IF_STMT | WHILE_STMT | FOR_STMT | CASE_STMT | DEFAULT_STMT
  | CONDITIONAL_OPERATOR | DO_STMT
  | COMPOUND_STMT | TRANSLATION_UNIT | INTEGER_LITERAL | otherKind
deriving DecidableEq, Repr

/-- libclang `StorageClass` (only the two members the code tests, plus a
default). -/
inductive StorageClassKind where
  | noneSC | staticSC | externSC
deriving DecidableEq, Repr

/-- The cursor attributes read by the indexer (see the module comment). -/
structure NodeData where
  kind : CKind
  spelling : String
  displayname : String
  usr : String
  locFile : Option String
  line : Nat
  col : Nat
  tokens : List String
  srcText : Option String
  extEndLine : Option Nat
  isDefn : Bool
  storage : StorageClassKind
  raises : Bool
deriving DecidableEq, Repr

/-- A libclang cursor: its scalar attributes, `get_definition()`,
`referenced`, and its children. -/
inductive Node where
  | mk (data : NodeData) (defCursor : Option Node) (refCursor : Option Node)
      (children : List Node)

/-- Scalar attributes of a node. -/
def Node.data : Node → NodeData
  | .mk d _ _ _ => d

/-- `cursor.get_definition()`. -/
def Node.defCursor : Node → Option Node
  | .mk _ dc _ _ => dc

/-- `cursor.referenced`. -/
def Node.refCursor : Node → Option Node
  | .mk _ _ rc _ => rc

/-- `cursor.get_children()`. -/
def Node.children : Node → List Node
  | .mk _ _ _ cs => cs

/-- Row of the `symbols` table.  The Python column `is_extern` is spelled
`isExternal` here. -/
structure SymbolRec where
  id : Nat
  name : String
  usr : String
  kind : SymbolType
  signature : String
  file_id : Nat
  line : Nat
  column : Nat
  end_line : Nat
  cyclomatic_complexity : Nat
  is_static : Bool
  isExternal : Bool
  is_definition : Bool
deriving DecidableEq, Repr

/-- Row of the `references` table (the generated primary key is not
modelled; nothing reads it). -/
structure RefRec where
  source_id : Nat
  target_id : Nat
  kind : RefType
  file_id : Nat
  line : Nat
  column : Nat
deriving DecidableEq, Repr

/-- Row of the `includes` table. -/
structure IncludeRec where
  source_file_id : Nat
  target_path : String
  target_file_id : Option Nat
  line : Nat
deriving DecidableEq, Repr

/-- Row of the `files` table (`FileRecord` in `models.py`). -/
structure FileRec where
  id : Nat
  path : String
  last_modified : Nat
  project_id : Option Nat
  module_id : Option Nat
deriving DecidableEq, Repr

/-- Row of the `projects` table; `scan_progress` (a Python float in `[0,1]`)
is carried as a `numerator/denominator` pair of naturals. -/
structure ProjectRec where
  id : Nat
  root_path : String
  scan_status : ScanStatus
  scan_progress : Nat × Nat
  scan_message : String
deriving DecidableEq, Repr

/-- Row of the `modules` table (`ModuleDefinition`). -/
structure ModuleRec where
  id : Nat
  project_id : Nat
  name : String
  layer : Int
deriving DecidableEq, Repr

/-- Row of the `architecture_rules` table (`ArchitectureRule`); the unused
`pattern` column is omitted. -/
structure RuleRec where
  id : Nat
  project_id : Nat
  name : String
  rule_type : String
  source_module_id : Option Nat
  target_module_id : Option Nat
  is_active : Bool
deriving DecidableEq, Repr

/-- One record of the violation list built by `_check_layer_violations`. -/
structure Violation where
  rule_id : Nat
  rule_name : String
  vtype : String
  message : String
  reference_line : Nat
  file_id : Nat
  target_symbol : String
deriving DecidableEq, Repr

/-- The relational store.  `nextSymbolId`/`nextFileId` model the
autoincrement sequences. -/
structure DBState where
  files : List FileRec
  symbols : List SymbolRec
  references : List RefRec
  includes : List IncludeRec
  projects : List ProjectRec
  modules : List ModuleRec
  rules : List RuleRec
  nextSymbolId : Nat
  nextFileId : Nat
deriving DecidableEq, Repr

/-- A SQLAlchemy session: current view (committed rows plus pending writes)
and the last committed state. -/
structure Session where
  cur : DBState
  saved : DBState
deriving DecidableEq, Repr

/-- `self.db.commit()`. -/
def Session.commit (s : Session) : Session :=
  { cur := s.cur, saved := s.cur }

/-- `self.db.rollback()`. -/
def Session.rollback (s : Session) : Session :=
  { cur := s.saved, saved := s.saved }

/-- Python `str.split()` with no argument: maximal runs of non-whitespace
characters, leading/trailing/repeated whitespace dropped. -/
def pyWordsAux : List Char → List Char → List String
  | [], acc => if acc.isEmpty then [] else [String.mk acc.reverse]
  | c :: cs, acc =>
    if c.isWhitespace then
      if acc.isEmpty then pyWordsAux cs []
      else String.mk acc.reverse :: pyWordsAux cs []
    else pyWordsAux cs (c :: acc)

/-- Python `s.split()`. -/
def pyWords (s : String) : List String := pyWordsAux s.data []

/-- Python `s[:n]` on a string. -/
def pyTake (s : String) (n : Nat) : String := String.mk (s.data.take n)

/-- `get_symbol_signature` of `indexer.py`: collapse the extent's source text
to single spaces; if longer than 500 characters keep the first 500 and append
an ellipsis; when the source text is unavailable fall back to
`cursor.displayname or cursor.spelling`. -/
def get_symbol_signature (n : Node) : String :=
  match n.data.srcText with
  | some raw =>
    let sig := String.intercalate " " (pyWords raw)
    if sig.length > 500 then pyTake sig 500 ++ "..." else sig
  | none => if n.data.displayname.isEmpty then n.data.spelling else n.data.displayname

/-- `get_symbol_end_line` of `indexer.py` (extent end line, falling back to
the location line when reading the extent raises). -/
def get_symbol_end_line (n : Node) : Nat :=
  n.data.extEndLine.getD n.data.line

/-- The decision-point kinds of `calculate_cyclomatic_complexity`. -/
def decisionKind (k : CKind) : Bool :=
  k = CKind.IF_STMT || k = CKind.WHILE_STMT || k = CKind.FOR_STMT ||
  k = CKind.CASE_STMT || k = CKind.DEFAULT_STMT ||
  k = CKind.CONDITIONAL_OPERATOR || k = CKind.DO_STMT

mutual

/-- `count_decision_points` of `calculate_cyclomatic_complexity`: one per
decision node, plus every `&&`/`||` token of a binary-operator node, over the
whole subtree. -/
def count_decision_points : Node → Nat
  | .mk d _ _ children =>
    (if decisionKind d.kind then 1 else 0) +
    (if d.kind = CKind.BINARY_OPERATOR then
      (d.tokens.filter (fun t => t == "&&" || t == "||")).length
    else 0) +
    cdpList children

/-- Sum of `count_decision_points` over a child list. -/
def cdpList : List Node → Nat
  | [] => 0
  | c :: cs => count_decision_points c + cdpList cs

end

/-- `calculate_cyclomatic_complexity` of `indexer.py`. -/
def calculate_cyclomatic_complexity (n : Node) : Nat :=
  if n.data.kind ≠ CKind.FUNCTION_DECL then 0
  else 1 + count_decision_points n

/-- The `kind_map` of `get_or_create_symbol`, with its
default-to-`VARIABLE`. -/
def kind_map (k : CKind) : SymbolType :=
  match k with
  | CKind.FUNCTION_DECL => SymbolType.function
  | CKind.VAR_DECL => SymbolType.variable
  | CKind.STRUCT_DECL => SymbolType.struct
  | CKind.TYPEDEF_DECL => SymbolType.typedef
  | CKind.FIELD_DECL => SymbolType.field
  | CKind.PARM_DECL => SymbolType.variable
  | CKind.ENUM_DECL => SymbolType.enum
  | CKind.UNION_DECL => SymbolType.union
  | CKind.MACRO_DEFINITION => SymbolType.macroSym
  | _ => SymbolType.variable

/-- Add a symbol row to the session's pending writes and bump the sequence. -/
def Session.addSymbol (s : Session) (sym : SymbolRec) : Session :=
  { s with cur := { s.cur with
                    symbols := s.cur.symbols ++ [sym],
                    nextSymbolId := s.cur.nextSymbolId + 1 } }

/-- Add a reference row to the session's pending writes. -/
def Session.addReference (s : Session) (r : RefRec) : Session :=
  { s with cur := { s.cur with references := s.cur.references ++ [r] } }

/-- Add an include row to the session's pending writes. -/
def Session.addInclude (s : Session) (i : IncludeRec) : Session :=
  { s with cur := { s.cur with includes := s.cur.includes ++ [i] } }

/-- `db.query(Symbol).filter(Symbol.file_id == fid).delete()`. -/
def Session.deleteSymbolsByFile (s : Session) (fid : Nat) : Session :=
  { s with cur := { s.cur with symbols := s.cur.symbols.filter (fun sym => sym.file_id ≠ fid) } }

/-- `db.query(Include).filter(Include.source_file_id == fid).delete()`. -/
def Session.deleteIncludesBySource (s : Session) (fid : Nat) : Session :=
  { s with cur := { s.cur with includes := s.cur.includes.filter (fun i => i.source_file_id ≠ fid) } }

/-- `Indexer.get_or_create_file`: look the absolute path up; create, commit
and return the row when absent. -/
def get_or_create_file (s : Session) (path : String) (mtime : Nat)
    (project_id : Option Nat) : Session × FileRec :=
  match s.cur.files.find? (fun f => f.path == path) with
  | some f => (s, f)
  | none =>
    let f : FileRec := { id := s.cur.nextFileId, path := path,
                         last_modified := mtime, project_id := project_id,
                         module_id := none }
    let s := { s with cur := { s.cur with
                               files := s.cur.files ++ [f],
                               nextFileId := s.cur.nextFileId + 1 } }
    (s.commit, f)

/-- `Indexer.get_or_create_symbol`: `None` cursor or empty usr yield no
symbol; an existing row with the same usr is returned untouched; otherwise a
fresh row is built from the cursor, added and committed.  `fid` is
`self.current_file_id`. -/
def get_or_create_symbol (s : Session) (fid : Nat) (c : Option Node) :
    Session × Option SymbolRec :=
  match c with
  | none => (s, none)
  | some n =>
    if n.data.usr.isEmpty then (s, none)
    else
      match s.cur.symbols.find? (fun sym => sym.usr == n.data.usr) with
      | some sym => (s, some sym)
      | none =>
        let sym : SymbolRec :=
          { id := s.cur.nextSymbolId
            name := n.data.spelling
            usr := n.data.usr
            kind := kind_map n.data.kind
            signature := get_symbol_signature n
            file_id := fid
            line := n.data.line
            column := n.data.col
            end_line := get_symbol_end_line n
            cyclomatic_complexity :=
              if n.data.kind = CKind.FUNCTION_DECL then
                calculate_cyclomatic_complexity n
              else 0
            is_static := n.data.storage = StorageClassKind.staticSC
            isExternal := n.data.storage = StorageClassKind.externSC
            is_definition := n.data.isDefn }
        ((s.addSymbol sym).commit, some sym)

/-- Python `a or b` on two optional cursors
(`node.get_definition() or node.referenced`). -/
def orCursor (a b : Option Node) : Option Node :=
  match a with
  | some x => some x
  | none => b

/-- The assignment-operator spellings tested by `visit_node`. -/
def assignOps : List String :=
  ["=", "+=", "-=", "*=", "/=", "%=", "&=", "|=", "^=", "<<=", ">>="]

/-- The declaration kinds that open a new scope in `visit_node`. -/
def defnKind (k : CKind) : Bool :=
  k = CKind.FUNCTION_DECL || k = CKind.STRUCT_DECL ||
  k = CKind.TYPEDEF_DECL || k = CKind.VAR_DECL

/-- Step 1 of `visit_node` ("检查当前节点是不是一个定义"): for a definition
kind whose location lies in the indexed file, get-or-create its symbol; the
returned scope is the symbol's id, or the inherited `parent_symbol_id` when
no symbol was produced. -/
def scope_step (fid : Nat) (fpath : String) (s : Session) (n : Node)
    (parent_symbol_id : Option Nat) : Session × Option Nat :=
  if defnKind n.data.kind && (n.data.locFile == some fpath) then
    match get_or_create_symbol s fid (some n) with
    | (s1, some sym) => (s1, some sym.id)
    | (s1, none) => (s1, parent_symbol_id)
  else (s, parent_symbol_id)

/-- The `ref_kind` computed by step 2 of `visit_node`: `call` for a call
expression, `read`/`write` (by write context) for a name or member
reference, nothing otherwise. -/
def ref_kind_of (n : Node) (is_written_context : Bool) : Option RefType :=
  if n.data.kind = CKind.CALL_EXPR then some RefType.call
  else if n.data.kind = CKind.DECL_REF_EXPR ∨ n.data.kind = CKind.MEMBER_REF_EXPR then
    some (if is_written_context then RefType.write else RefType.read)
  else none

/-- The `target_cursor` computed by step 2 of `visit_node`
(`node.get_definition() or node.referenced`, set only for the reference
kinds). -/
def ref_target_of (n : Node) : Option Node :=
  if n.data.kind = CKind.CALL_EXPR ∨ n.data.kind = CKind.DECL_REF_EXPR ∨
      n.data.kind = CKind.MEMBER_REF_EXPR then
    orCursor n.defCursor n.refCursor
  else none

/-- Step 2 of `visit_node` ("检查当前节点是不是一个引用"): when a (truthy)
scope is active and the node is a call or a name/member reference with a
resolvable target, get-or-create the target's symbol and add a reference row
of the matching kind. -/
def ref_step (fid : Nat) (s : Session) (n : Node) (parent_symbol_id : Option Nat)
    (is_written_context : Bool) : Session :=
  match parent_symbol_id with
  | none => s
  | some pid =>
    if pid = 0 then s else
    match ref_kind_of n is_written_context, ref_target_of n with
    | some rk, some tgt =>
      match get_or_create_symbol s fid (some tgt) with
      | (s1, some tsym) =>
        s1.addReference
          { source_id := pid, target_id := tsym.id, kind := rk,
            file_id := fid, line := n.data.line, column := n.data.col }
      | (s1, none) => s1
    | _, _ => s

mutual

/-- `Indexer.visit_node`.  `fid` is `self.current_file_id`, `fpath` is
`self.file_path`.  The result is `Except.error s` when an exception escapes
the node's processing (a node with `raises` set), carrying the session state
at the raise; `Except.ok s` is normal completion.  Step 1 (`scope_step`)
creates/opens the scope, step 2 (`ref_step`) records a reference, step 3
either handles an assignment's children (first child written, remaining
children read, no default recursion) or recurses into all children with the
inherited scope and no write context. -/
def visit_node (fid : Nat) (fpath : String) (s : Session) :
    Node → Option Nat → Bool → Except Session Session
  | n@(.mk d _ _ children), parent_symbol_id, is_written_context =>
    if d.raises then Except.error s else
    let r1 := scope_step fid fpath s n parent_symbol_id
    let current_symbol_id := r1.2
    let s2 := ref_step fid r1.1 n parent_symbol_id is_written_context
    let is_assign : Bool :=
      (d.kind = CKind.BINARY_OPERATOR || d.kind = CKind.COMPOUND_ASSIGNMENT_OPERATOR) &&
      d.tokens.any (fun t => assignOps.contains t)
    if is_assign then
      match children with
      | [] => Except.ok s2
      | c0 :: rest =>
        match visit_node fid fpath s2 c0 parent_symbol_id true with
        | Except.ok s3 => visit_list fid fpath s3 rest parent_symbol_id false
        | Except.error e => Except.error e
    else
      let next_scope := if defnKind d.kind then current_symbol_id else parent_symbol_id
      visit_list fid fpath s2 children next_scope false

/-- The `for child in node.get_children(): self.visit_node(child, scope, w)`
loops of `visit_node`, threading the session and propagating a raise. -/
def visit_list (fid : Nat) (fpath : String) (s : Session) :
    List Node → Option Nat → Bool → Except Session Session
  | [], _, _ => Except.ok s
  | c :: cs, scope, w =>
    match visit_node fid fpath s c scope w with
    | Except.ok s2 => visit_list fid fpath s2 cs scope w
    | Except.error e => Except.error e

end

/-- One inclusion edge reported by `tu.get_includes()`: the including file,
the included file's path, and the line of the `#include`. -/
structure Inclusion where
  sourcePath : String
  targetPath : String
  line : Nat
deriving DecidableEq, Repr

/-- A parsed translation unit: its root cursor and its inclusion list. -/
structure TU where
  root : Node
  inclusions : List Inclusion

/-- `Indexer.extract_includes`: for every inclusion whose source is the file
being indexed, resolve the target path against the file table and add an
include row (pending, not committed). -/
def extract_includes (s : Session) (fid : Nat) (fpath : String) (tu : TU) : Session :=
  tu.inclusions.foldl
    (fun s inc =>
      if inc.sourcePath != fpath then s
      else
        let tgt := s.cur.files.find? (fun f => f.path == inc.targetPath)
        s.addInclude
          { source_file_id := fid, target_path := inc.targetPath,
            target_file_id := tgt.map (fun f => f.id), line := inc.line })
    s

/-- `Indexer.index_file`.  `parsed = none` models `self.index.parse` raising;
`parsed = some tu` is a successful parse.  The old symbol and include rows of
the file are deleted and the deletion committed before parsing; a raise from
the parse or the traversal is caught and answered with `rollback`, success
ends with `commit`. -/
def index_file (s : Session) (project_id : Option Nat) (fpath : String)
    (mtime : Nat) (parsed : Option TU) : Session :=
  let r := get_or_create_file s fpath mtime project_id
  let fid := r.2.id
  let s := (((r.1.deleteSymbolsByFile fid).deleteIncludesBySource fid)).commit
  match parsed with
  | none => s.rollback
  | some tu =>
    let s := extract_includes s fid fpath tu
    match visit_node fid fpath s tu.root none false with
    | Except.ok s2 => s2.commit
    | Except.error s2 => s2.rollback

/-- Update every project row with the given id. -/
def Session.updateProject (s : Session) (pid : Nat) (f : ProjectRec → ProjectRec) : Session :=
  { s with cur := { s.cur with
    projects := s.cur.projects.map (fun p => if p.id = pid then f p else p) } }

/-- One file of a project scan: its path, its mtime, and the outcome of
parsing it (`none` = the parse raises, as in `index_file`). -/
structure FileJob where
  path : String
  mtime : Nat
  parsed : Option TU

/-- The indexing loop of `scan_project`: index each collected file in order,
committing a progress update after every tenth file.  `total` is the length
of the full collected list and `hasProj` whether the project row was found. -/
def scanLoop (s : Session) (pid : Nat) (jobs : List FileJob) (total : Nat)
    (hasProj : Bool) : Session :=
  (jobs.enum).foldl
    (fun s ij =>
      let s := index_file s (some pid) ij.2.path ij.2.mtime ij.2.parsed
      if (ij.1 + 1) % 10 == 0 && hasProj then
        (s.updateProject pid (fun p =>
          { p with scan_progress := (ij.1 + 1, total),
                   scan_message := "Indexed " ++ toString (ij.1 + 1) ++ "/" ++
                     toString total ++ " files" })).commit
      else s)
    s

/-- The opening block of `Indexer.scan_project`: when the project row is
found, set its status to `scanning` (progress 0, message "Initializing
scan...") and commit. -/
def scan_project_start (s : Session) (pid : Nat) : Session :=
  if s.cur.projects.any (fun p => p.id == pid) then
    (s.updateProject pid (fun p =>
      { p with scan_status := ScanStatus.scanning, scan_progress := (0, 1),
               scan_message := "Initializing scan..." })).commit
  else s

/-- `Indexer.scan_project`, after the opening status write
(`scan_project_start`).  `jobs` is the file list `os.walk` collects;
`topFail = some k` models the body of the top-level `try` raising after `k`
files were processed (for example while walking the tree when `k = 0`), in
which case the `except` branch marks the scan failed; `topFail = none` is a
run in which the body completes. -/
def scan_project (s : Session) (pid : Nat) (jobs : List FileJob)
    (topFail : Option Nat) : Session :=
  let hasProj := s.cur.projects.any (fun p => p.id == pid)
  let s := scan_project_start s pid
  match topFail with
  | some k =>
    let s := scanLoop s pid (jobs.take k) jobs.length hasProj
    if hasProj then
      (s.updateProject pid (fun p =>
        { p with scan_status := ScanStatus.failed,
                 scan_message := "Scan failed" })).commit
    else s
  | none =>
    let s := scanLoop s pid jobs jobs.length hasProj
    if hasProj then
      (s.updateProject pid (fun p =>
        { p with scan_status := ScanStatus.completed, scan_progress := (1, 1),
                 scan_message := "Scan complete. Indexed " ++
                   toString jobs.length ++ " files." })).commit
    else s

/-- A networkx `DiGraph` restricted to what the analyzer uses: node list and
edge list in insertion order, duplicates suppressed. -/
structure DiGraph where
  nodes : List Nat
  edges : List (Nat × Nat)
deriving DecidableEq, Repr

/-- `G.add_node(n)`. -/
def DiGraph.addNode (G : DiGraph) (n : Nat) : DiGraph :=
  if G.nodes.contains n then G else { G with nodes := G.nodes ++ [n] }

/-- `G.add_edge(u, v)` (also inserts missing endpoints, as networkx does). -/
def DiGraph.addEdge (G : DiGraph) (u v : Nat) : DiGraph :=
  let G := (G.addNode u).addNode v
  if G.edges.contains (u, v) then G else { G with edges := G.edges ++ [(u, v)] }

/-- `G.predecessors(n)`: sources of the edges into `n`. -/
def DiGraph.predecessors (G : DiGraph) (n : Nat) : List Nat :=
  (G.edges.filter (fun e => e.2 == n)).map (fun e => e.1)

/-- The path filter of `_get_project_files`: the file's path is the root or
lies strictly below it (`path == root OR path LIKE root || '/%'`). -/
def underRoot (root p : String) : Bool :=
  p == root || List.isPrefixOf (root ++ "/").data p.data

/-- `ArchitectureAnalyzer._get_project_files` (an empty root path — no
project row — yields no files). -/
def get_project_files (db : DBState) (root : String) : List FileRec :=
  if root = "" then [] else db.files.filter (fun f => underRoot root f.path)

/-- `ArchitectureAnalyzer.build_include_graph`: one node per project file,
one edge source → target per include row of a project file whose target
resolved. -/
def build_include_graph (db : DBState) (root : String) : DiGraph :=
  let G := (get_project_files db root).foldl (fun G f => G.addNode f.id)
    { nodes := [], edges := [] }
  let incs := db.includes.filter (fun i =>
    db.files.any (fun f => f.id == i.source_file_id && underRoot root f.path))
  incs.foldl
    (fun G i =>
      match i.target_file_id with
      | some t => G.addEdge i.source_file_id t
      | none => G)
    G

/-- Successors of `a` in an edge list. -/
def succList (edges : List (Nat × Nat)) (a : Nat) : List Nat :=
  (edges.filter (fun e => e.1 == a)).map (fun e => e.2)

/-- One saturation step of the reachable set: append the successors not yet
present. -/
def closureStep (edges : List (Nat × Nat)) (vs : List Nat) : List Nat :=
  vs ++ ((vs.flatMap (succList edges)).filter (fun m => !vs.contains m)).dedup

/-- Iterated saturation. -/
def closureN (edges : List (Nat × Nat)) : Nat → List Nat → List Nat
  | 0, vs => vs
  | k + 1, vs => closureN edges k (closureStep edges vs)

/-- Reachability along the edge list (model of a networkx graph search):
`b` lies in the saturation of `{a}`; `G.nodes.length + 1` rounds always
suffice. -/
def DiGraph.reachable (G : DiGraph) (a b : Nat) : Bool :=
  (closureN G.edges (G.nodes.length + 1) [a]).contains b

/-- Nodes `a` and `b` reach each other. -/
def DiGraph.mutualReach (G : DiGraph) (a b : Nat) : Bool :=
  G.reachable a b && G.reachable b a

/-- The strongly connected component of `a`, as the list of graph nodes
mutually reachable with `a`. -/
def sccOf (G : DiGraph) (a : Nat) : List Nat :=
  G.nodes.filter (fun b => G.mutualReach a b)

/-- Model of `networkx.strongly_connected_components`: every component
listed once, in order of its first node. -/
def strongly_connected_components (G : DiGraph) : List (List Nat) :=
  G.nodes.foldl
    (fun acc n => if acc.any (fun c => c.contains n) then acc else acc ++ [sccOf G n])
    []

/-- `ArchitectureAnalyzer.detect_circular_dependencies`: the strongly
connected components of the include graph with more than one member. -/
def detect_circular_dependencies (db : DBState) (root : String) : List (List Nat) :=
  (strongly_connected_components (build_include_graph db root)).filter
    (fun c => c.length > 1)

/-- `n` has no incoming edge. -/
def noIncoming (edges : List (Nat × Nat)) (n : Nat) : Bool :=
  edges.all (fun e => e.2 != n)

/-- Kahn's algorithm (model of `networkx.topological_sort`, which raises on
a cyclic graph — here `none`): repeatedly emit the first remaining node with
no incoming edge and drop its outgoing edges. -/
def topoAux : Nat → List Nat → List (Nat × Nat) → Option (List Nat)
  | _, [], _ => some []
  | 0, _ :: _, _ => none
  | fuel + 1, rem@(_ :: _), edges =>
    match rem.find? (noIncoming edges) with
    | none => none
    | some n =>
      match topoAux fuel (rem.erase n) (edges.filter (fun e => e.1 != n)) with
      | some order => some (n :: order)
      | none => none

/-- `networkx.topological_sort` on the model graph. -/
def topological_sort (G : DiGraph) : Option (List Nat) :=
  topoAux G.nodes.length G.nodes G.edges

/-- `networkx.is_directed_acyclic_graph` (a topological sort exists). -/
def is_directed_acyclic_graph (G : DiGraph) : Bool :=
  (topological_sort G).isSome

/-- `layers.get(p, 0)` on the layer map (kept as an association list in
insertion order; first binding wins, missing keys default to 0). -/
def lookupLayer (layers : List (Nat × Nat)) (p : Nat) : Nat :=
  match layers.find? (fun e => e.1 == p) with
  | some e => e.2
  | none => 0

/-- One iteration of the acyclic levelization loop:
`layers[node] = 0` without predecessors, else
`max(layers.get(p, 0) for p in predecessors) + 1`. -/
def levelizeStep (G : DiGraph) (layers : List (Nat × Nat)) (node : Nat) :
    List (Nat × Nat) :=
  let preds := G.predecessors node
  layers ++ [(node,
    if preds.isEmpty then 0
    else (preds.map (fun p => lookupLayer layers p)).foldl max 0 + 1)]

/-- Index of the component containing `n` (networkx's node→component map of
`condensation`). -/
def sccIndexOf (comps : List (List Nat)) (n : Nat) : Nat :=
  comps.findIdx (fun c => c.contains n)

/-- Model of `networkx.condensation`: one node per strongly connected
component (numbered in generation order) and an edge between the components
of every inter-component edge; also returns the member lists. -/
def condensation (G : DiGraph) : DiGraph × List (List Nat) :=
  let comps := strongly_connected_components G
  let H := G.edges.foldl
    (fun H e =>
      let i := sccIndexOf comps e.1
      let j := sccIndexOf comps e.2
      if i == j then H else H.addEdge i j)
    { nodes := List.range comps.length, edges := [] }
  (H, comps)

/-- `ArchitectureAnalyzer.compute_levelization`: on an acyclic include graph
fold the levelization step over a topological order; on a cyclic graph give
every file the positional index of its component in a topological order of
the condensation; on failure of the sort, the `except` yields `{}`. -/
def compute_levelization (db : DBState) (root : String) : List (Nat × Nat) :=
  let G := build_include_graph db root
  if is_directed_acyclic_graph G then
    match topological_sort G with
    | some order => order.foldl (levelizeStep G) []
    | none => []
  else
    let C := condensation G
    match topological_sort C.1 with
    | some torder =>
      (torder.enum).foldl
        (fun layers li =>
          (C.2.getD li.2 []).foldl (fun layers fid => layers ++ [(fid, li.1)]) layers)
        []
    | none => []

/-- Python truthiness of an optional integer column (`None` and `0` are
falsy). -/
def truthyOpt : Option Nat → Bool
  | none => false
  | some n => n != 0

/-- `db.query(ModuleDefinition).filter(ModuleDefinition.id == mid).first()`. -/
def find_module (db : DBState) (mid : Nat) : Option ModuleRec :=
  db.modules.find? (fun m => m.id == mid)

/-- The inner join `Reference × Symbol on Reference.target_id == Symbol.id`
followed by the two `file_id` filters of `_check_layer_violations`. -/
def layerViolationRows (db : DBState) (source_file_ids target_file_ids : List Nat) :
    List (RefRec × SymbolRec) :=
  (db.references.flatMap (fun r =>
    (db.symbols.filter (fun sy => sy.id == r.target_id)).map (fun sy => (r, sy)))).filter
    (fun rs => source_file_ids.contains rs.1.file_id &&
               target_file_ids.contains rs.2.file_id)

/-- `ArchitectureAnalyzer._check_layer_violations`: nothing for a rule with a
falsy or dangling module id; nothing when the source module's layer is not
strictly below the target's; otherwise one violation record per joined
reference row. -/
def check_layer_violations (db : DBState) (rule : RuleRec) : List Violation :=
  if !truthyOpt rule.source_module_id || !truthyOpt rule.target_module_id then []
  else
    match find_module db (rule.source_module_id.getD 0),
          find_module db (rule.target_module_id.getD 0) with
    | some sm, some tm =>
      if sm.layer < tm.layer then
        let source_file_ids :=
          (db.files.filter (fun f => f.module_id == some sm.id)).map (fun f => f.id)
        let target_file_ids :=
          (db.files.filter (fun f => f.module_id == some tm.id)).map (fun f => f.id)
        (layerViolationRows db source_file_ids target_file_ids).map (fun rs =>
          { rule_id := rule.id
            rule_name := rule.name
            vtype := "layer_violation"
            message := "Lower layer " ++ sm.name ++ " (layer " ++ toString sm.layer ++
              ") calls upper layer " ++ tm.name ++ " (layer " ++ toString tm.layer ++ ")"
            reference_line := rs.1.line
            file_id := rs.1.file_id
            target_symbol := rs.2.name })
      else []
    | _, _ => []

/-- `ArchitectureAnalyzer._check_locked_module_violations` (detection
framework only, yields nothing). -/
def check_locked_module_violations (_db : DBState) (_rule : RuleRec) : List Violation :=
  []

/-- `ArchitectureAnalyzer.check_architecture_violations`: dispatch every
active rule of the project on its `rule_type`. -/
def check_architecture_violations (db : DBState) (project_id : Nat) : List Violation :=
  let rules := db.rules.filter (fun r => r.project_id == project_id && r.is_active)
  rules.foldl
    (fun acc r =>
      if r.rule_type == "layer_violation" then acc ++ check_layer_violations db r
      else if r.rule_type == "locked_module" then
        acc ++ check_locked_module_violations db r
      else acc)
    []

/-- The empty store (sequences start at 1, as SQLAlchemy ids do). -/
def emptyDB : DBState :=
  { files := [], symbols := [], references := [], includes := [], projects := [],
    modules := [], rules := [], nextSymbolId := 1, nextFileId := 1 }

/-- A fresh session over a store. -/
def sessionOf (db : DBState) : Session := { cur := db, saved := db }

/-- Default cursor attributes for building example nodes. -/
def nd (k : CKind) : NodeData :=
  { kind := k, spelling := "", displayname := "", usr := "", locFile := none,
    line := 0, col := 0, tokens := [], srcText := none, extEndLine := none,
    isDefn := false, storage := StorageClassKind.noneSC, raises := false }

/-- Project file A (`a.h`). -/
def fileA : FileRec :=
  { id := 1, path := "/p/a.h", last_modified := 0, project_id := some 1, module_id := none }

/-- Project file B (`b.h`). -/
def fileB : FileRec :=
  { id := 2, path := "/p/b.h", last_modified := 0, project_id := some 1, module_id := none }

/-- Project file C (`c.c`). -/
def fileC : FileRec :=
  { id := 3, path := "/p/c.c", last_modified := 0, project_id := some 1, module_id := none }

/-- Project file D (`d.c`). -/
def fileD : FileRec :=
  { id := 4, path := "/p/d.c", last_modified := 0, project_id := some 1, module_id := none }

/-- Store for the layering example: B includes A, C includes B, A includes
nothing. -/
def levDB : DBState :=
  { emptyDB with
    files := [fileA, fileB, fileC],
    includes :=
      [ { source_file_id := 2, target_path := "/p/a.h", target_file_id := some 1, line := 1 },
        { source_file_id := 3, target_path := "/p/b.h", target_file_id := some 2, line := 1 } ] }

/-- Store for the cycle example: A includes B, B includes C, C includes A,
D unrelated. -/
def cycDB : DBState :=
  { emptyDB with
    files := [fileA, fileB, fileC, fileD],
    includes :=
      [ { source_file_id := 1, target_path := "/p/b.h", target_file_id := some 2, line := 1 },
        { source_file_id := 2, target_path := "/p/c.c", target_file_id := some 3, line := 1 },
        { source_file_id := 3, target_path := "/p/a.h", target_file_id := some 1, line := 1 } ] }

/-- `int x;` declaration inside `f` (example file `/p/m.c`). -/
def varX : Node :=
  Node.mk { nd CKind.VAR_DECL with
    spelling := "x", usr := "c:m.c@x",
            locFile := some "/p/m.c", line := 2, col := 7, isDefn := true } none none []

/-- `int y;` declaration inside `f`. -/
def varY : Node :=
  Node.mk { nd CKind.VAR_DECL with
    spelling := "y", usr := "c:m.c@y",
            locFile := some "/p/m.c", line := 3, col := 7, isDefn := true } none none []

/-- The `x` of `x = y + 1;` (a DECL_REF_EXPR resolving to `varX`). -/
def refX : Node :=
  Node.mk { nd CKind.DECL_REF_EXPR with
    spelling := "x",
            locFile := some "/p/m.c", line := 4, col := 3 } (some varX) none []

/-- The `y` of `x = y + 1;` (a DECL_REF_EXPR resolving to `varY`). -/
def refY : Node :=
  Node.mk { nd CKind.DECL_REF_EXPR with
    spelling := "y",
            locFile := some "/p/m.c", line := 4, col := 7 } (some varY) none []

/-- The literal `1`. -/
def litOne : Node := Node.mk (nd CKind.INTEGER_LITERAL) none none []

/-- The subexpression `y + 1` (a binary operator with no assignment token). -/
def addExpr : Node :=
  Node.mk { nd CKind.BINARY_OPERATOR with
    tokens := ["y", "+", "1"],
            locFile := some "/p/m.c", line := 4, col := 7 } none none [refY, litOne]

/-- The statement `x = y + 1;` (a binary operator whose tokens contain `=`). -/
def assignStmt : Node :=
  Node.mk { nd CKind.BINARY_OPERATOR with
    tokens := ["x", "=", "y", "+", "1"],
            locFile := some "/p/m.c", line := 4, col := 3 } none none [refX, addExpr]

/-- The body of `f`. -/
def bodyF : Node :=
  Node.mk { nd CKind.COMPOUND_STMT with
    locFile := some "/p/m.c", line := 1, col := 10 }
    none none [varX, varY, assignStmt]

/-- `void f() { int x; int y; x = y + 1; }` in `/p/m.c`. -/
def funF : Node :=
  Node.mk { nd CKind.FUNCTION_DECL with
    spelling := "f", usr := "c:@F@f",
            displayname := "f()", locFile := some "/p/m.c", line := 1, col := 6,
            isDefn := true } none none [bodyF]

/-- The translation unit of `/p/m.c`. -/
def tuM : TU :=
  { root := Node.mk (nd CKind.TRANSLATION_UNIT) none none [funF], inclusions := [] }

/-- `int v;` in `/p/bad.c`. -/
def varV : Node :=
  Node.mk { nd CKind.VAR_DECL with
    spelling := "v", usr := "c:bad.c@v",
            locFile := some "/p/bad.c", line := 1, col := 5, isDefn := true } none none []

/-- A node whose processing raises (fault injection for the traversal). -/
def boomNode : Node :=
  Node.mk { nd CKind.otherKind with
    raises := true } none none []

/-- Translation unit of `/p/bad.c`: one variable is indexed (and committed),
then the traversal raises. -/
def tuBad : TU :=
  { root := Node.mk (nd CKind.TRANSLATION_UNIT) none none [varV, boomNode],
    inclusions := [] }

/-- `int w;` in `/p/good.c`. -/
def varW : Node :=
  Node.mk { nd CKind.VAR_DECL with
    spelling := "w", usr := "c:good.c@w",
            locFile := some "/p/good.c", line := 1, col := 5, isDefn := true } none none []

/-- Translation unit of `/p/good.c`. -/
def tuGood : TU :=
  { root := Node.mk (nd CKind.TRANSLATION_UNIT) none none [varW], inclusions := [] }

/-- A project row in state `pending`. -/
def projOne : ProjectRec :=
  { id := 1, root_path := "/p", scan_status := ScanStatus.pending,
    scan_progress := (0, 1), scan_message := "" }

/-- Store holding only the project row. -/
def projDB : DBState := { emptyDB with projects := [projOne] }

/-- Scan jobs: `/p/bad.c` (whose traversal raises) then `/p/good.c`. -/
def scanJobs : List FileJob :=
  [ { path := "/p/bad.c", mtime := 5, parsed := some tuBad },
    { path := "/p/good.c", mtime := 6, parsed := some tuGood } ]

/-- A 501-character source text (no whitespace). -/
def longText : String := String.mk (List.replicate 501 'a')

/-- A declaration whose extent text has 501 characters. -/
def longNode : Node :=
  Node.mk { nd CKind.FUNCTION_DECL with
    spelling := "g", usr := "c:@F@g",
            srcText := some longText } none none []

/-- A library function declared in `/p/lib.h` (another file). -/
def libFun : Node :=
  Node.mk { nd CKind.FUNCTION_DECL with
    spelling := "lib", usr := "c:@F@lib",
            displayname := "lib()", locFile := some "/p/lib.h", line := 1, col := 5 }
    none none []

/-- A call to `libFun` inside `/p/m2.c`. -/
def callLib : Node :=
  Node.mk { nd CKind.CALL_EXPR with
    spelling := "lib", locFile := some "/p/m2.c",
            line := 3, col := 3 } (some libFun) none []

/-- `void g2() { lib(); }` in `/p/m2.c`. -/
def funG2 : Node :=
  Node.mk { nd CKind.FUNCTION_DECL with
    spelling := "g2", usr := "c:@F@g2",
            locFile := some "/p/m2.c", line := 1, col := 6, isDefn := true }
    none none [callLib]

/-- Translation unit of `/p/m2.c`. -/
def tuM2 : TU :=
  { root := Node.mk (nd CKind.TRANSLATION_UNIT) none none [funG2], inclusions := [] }

/-- A symbol row created earlier from a declaration of `h`. -/
def symH : SymbolRec :=
  { id := 7, name := "h", usr := "c:@F@h", kind := SymbolType.function,
    signature := "int h()", file_id := 9, line := 12, column := 1, end_line := 12,
    cyclomatic_complexity := 1, is_static := false, isExternal := true,
    is_definition := false }

/-- A later cursor for the same usr `c:@F@h`, this time a definition with
different location and storage. -/
def defH : Node :=
  Node.mk { nd CKind.FUNCTION_DECL with
    spelling := "h", usr := "c:@F@h",
            displayname := "h()", locFile := some "/p/h.c", line := 30, col := 1,
            srcText := some "int h() { return 1; }", extEndLine := some 32,
            isDefn := true } none none []

/-- Store already holding `symH`. -/
def dbWithH : DBState := { emptyDB with symbols := [symH], nextSymbolId := 8 }

/-- Module `core`, layer 0. -/
def modCore : ModuleRec := { id := 1, project_id := 1, name := "core", layer := 0 }

/-- Module `ui`, layer 1. -/
def modUi : ModuleRec := { id := 2, project_id := 1, name := "ui", layer := 1 }

/-- A `core` file. -/
def fileCore : FileRec :=
  { id := 1, path := "/p/core/c1.c", last_modified := 0, project_id := some 1,
    module_id := some 1 }

/-- A `ui` file. -/
def fileUi : FileRec :=
  { id := 2, path := "/p/ui/u1.c", last_modified := 0, project_id := some 1,
    module_id := some 2 }

/-- A symbol living in the `ui` file. -/
def symUi : SymbolRec :=
  { id := 5, name := "draw", usr := "c:@F@draw", kind := SymbolType.function,
    signature := "void draw()", file_id := 2, line := 3, column := 1, end_line := 5,
    cyclomatic_complexity := 1, is_static := false, isExternal := false,
    is_definition := true }

/-- A reference from the `core` file to the `ui` symbol. -/
def refUp : RefRec :=
  { source_id := 9, target_id := 5, kind := RefType.call, file_id := 1, line := 7,
    column := 3 }

/-- An active `layer_violation` rule from `core` to `ui`. -/
def ruleUp : RuleRec :=
  { id := 1, project_id := 1, name := "no-upward", rule_type := "layer_violation",
    source_module_id := some 1, target_module_id := some 2, is_active := true }

/-- Store for the layer-violation example. -/
def archDB : DBState :=
  { emptyDB with
    files := [fileCore, fileUi], symbols := [symUi], references := [refUp],
    modules := [modCore, modUi], rules := [ruleUp] }

/-- The session state carried by either outcome of a traversal. -/
def exceptSession : Except Session Session → Session
  | Except.ok s => s
  | Except.error s => s

/-- All symbol rows a session knows about (current view and last committed
state). -/
def symsWithin (s : Session) : List SymbolRec :=
  s.cur.symbols ++ s.saved.symbols

/-- The usrs of the symbol table are pairwise distinct (the `unique=True`
constraint on `Symbol.usr`). -/
def usrNodup (db : DBState) : Prop :=
  db.symbols.Pairwise (fun a b => a.usr ≠ b.usr)

/-- Usr uniqueness in both the current view and the committed state. -/
def sessionUsrNodup (s : Session) : Prop :=
  usrNodup s.cur ∧ usrNodup s.saved

/-- The primary keys of the symbol table are pairwise distinct. -/
def symIdNodup (db : DBState) : Prop :=
  db.symbols.Pairwise (fun a b => a.id ≠ b.id)

/-- Reachability along an edge list (reflexive-transitive closure of the
edge relation). -/
inductive Reaches (edges : List (Nat × Nat)) : Nat → Nat → Prop where
  | refl (a : Nat) : Reaches edges a a
  | tail {a b c : Nat} : Reaches edges a b → (b, c) ∈ edges → Reaches edges a c

/-- `a` occurs (strictly) before an occurrence of `b` in `l`. -/
def Precedes (l : List Nat) (a b : Nat) : Prop :=
  List.Sublist [a, b] l

/-- The persisted scan status of a project. -/
def projStatus (s : Session) (pid : Nat) : Option ScanStatus :=
  (s.cur.projects.find? (fun p => p.id == pid)).map (fun p => p.scan_status)

/-- A reference counted by `_check_layer_violations` for source module
`smId` and target module `tmId`: its `file_id` is a file of the source
module and its target symbol exists and lives in a file of the target
module. -/
def refHitsModules (db : DBState) (smId tmId : Nat) (r : RefRec) : Bool :=
  db.files.any (fun f => f.module_id == some smId && f.id == r.file_id) &&
  db.symbols.any (fun sy => sy.id == r.target_id &&
    db.files.any (fun f => f.module_id == some tmId && f.id == sy.file_id))

/-- The symbol row the indexer creates for `libFun` while indexing
`/p/m2.c`. -/
def libRec : SymbolRec :=
  { id := 2, name := "lib", usr := "c:@F@lib", kind := SymbolType.function,
    signature := "lib()", file_id := 1, line := 1, column := 5, end_line := 1,
    cyclomatic_complexity := 1, is_static := false, isExternal := false,
    is_definition := false }

/-- Well-formedness of a model graph: no duplicate nodes, and every edge
endpoint is a node (networkx guarantees both by construction). -/
def GraphWF (G : DiGraph) : Prop :=
  G.nodes.Nodup ∧ ∀ e ∈ G.edges, e.1 ∈ G.nodes ∧ e.2 ∈ G.nodes

/-- A set of vertices closed under successors. -/
def Saturated (edges : List (Nat × Nat)) (vs : List Nat) : Prop :=
  ∀ x ∈ vs, ∀ y ∈ succList edges x, y ∈ vs

/-- The project's persisted scan status is `st` both in the session's
current view and in its last committed state. -/
def statusBoth (pid : Nat) (st : ScanStatus) (s : Session) : Prop :=
  (s.cur.projects.find? (fun p => p.id == pid)).map (fun p => p.scan_status) = some st ∧
  (s.saved.projects.find? (fun p => p.id == pid)).map (fun p => p.scan_status) = some st

/-! ## Theorems -/

/-- C10: when get-or-create Symbol is invoked for a cursor whose usr already
has a Symbol row, it returns that first matching row with every field
unchanged and leaves the session untouched — name, kind, signature, file_id,
line/column, end_line, cyclomatic_complexity, is_static, is_extern and
is_definition stay as created, even when the new cursor differs (for
example is a definition while the row was created from a declaration). -/
theorem C10_existing_usr_row_unchanged (s : Session) (fid : Nat) (n : Node)
    (sym : SymbolRec) (husr : n.data.usr.isEmpty = false)
    (hfind : s.cur.symbols.find? (fun t => t.usr == n.data.usr) = some sym) :
    get_or_create_symbol s fid (some n) = (s, some sym) := by
  simp [get_or_create_symbol, husr, hfind]

/-- Witness for C10: the stored declaration row `symH` is returned unchanged
for the later definition cursor `defH` of the same usr, and the session is
untouched. -/
theorem C10_witness :
    get_or_create_symbol (sessionOf dbWithH) 3 (some defH) = (sessionOf dbWithH, some symH) ∧
    defH.data.isDefn = true ∧ symH.is_definition = false ∧ defH.data.line ≠ symH.line :=
  ⟨C10_existing_usr_row_unchanged (sessionOf dbWithH) 3 defH symH (by decide) (by decide),
   by decide, by decide, by decide⟩

/-- On whitespace-free input, Python `split()` returns the single word (or
nothing when empty). -/
theorem pyWordsAux_no_ws (l : List Char) :
    ∀ acc : List Char, (∀ c ∈ l, c.isWhitespace = false) →
      pyWordsAux l acc =
        if (acc.reverse ++ l).isEmpty then [] else [String.mk (acc.reverse ++ l)] := by
  induction l with
  | nil =>
    intro acc _
    rcases acc with _ | ⟨c, cs⟩ <;> simp [pyWordsAux, List.isEmpty_iff]
  | cons c cs ih =>
    intro acc h
    have hc : c.isWhitespace = false := h c (by simp)
    have hcs : ∀ x ∈ cs, x.isWhitespace = false := fun x hx => h x (by simp [hx])
    simp [pyWordsAux, hc, ih (c :: acc) hcs, List.isEmpty_iff]

/-- Python `split()` of a nonempty whitespace-free string is that string. -/
theorem pyWords_no_ws (l : List Char) (h : ∀ c ∈ l, c.isWhitespace = false)
    (hne : l ≠ []) : pyWords (String.mk l) = [String.mk l] := by
  simp [pyWords, pyWordsAux_no_ws l [] h, List.isEmpty_iff, hne]

/-- Joining a single word with spaces is the word itself. -/
theorem intercalate_single (a : String) : String.intercalate " " [a] = a := by
  cases a
  simp [String.intercalate, String.intercalate.go]

/-- The signature of a node whose (whitespace-free) extent text is longer
than 500 characters: the first 500 characters plus the three-character
ellipsis. -/
theorem signature_long_no_ws (n : Node) (l : List Char)
    (hsrc : n.data.srcText = some (String.mk l))
    (h : ∀ c ∈ l, c.isWhitespace = false) (hlen : 500 < l.length) :
    get_symbol_signature n = String.mk (l.take 500) ++ "..." ∧
    (get_symbol_signature n).length = 503 := by
  have hne : l ≠ [] := by
    intro he
    rw [he] at hlen
    simp at hlen
  have hw : pyWords (String.mk l) = [String.mk l] := pyWords_no_ws l h hne
  have hsig : get_symbol_signature n = String.mk (l.take 500) ++ "..." := by
    simp [get_symbol_signature, hsrc, hw, intercalate_single, pyTake, hlen]
  refine ⟨hsig, ?_⟩
  rw [hsig]
  have hdots : ("..." : String).length = 3 := rfl
  simp [String.length_append, List.length_take, hdots]
  omega

/-- C7, counterexample: for a declaration whose collapsed source text has
501 characters the stored signature has 503 characters, not at most 500 as
claimed. -/
theorem C7_counterexample :
    (get_symbol_signature longNode).length = 503 ∧
    ¬ (get_symbol_signature longNode).length ≤ 500 := by
  have h := signature_long_no_ws longNode (List.replicate 501 'a')
    rfl
    (by
      intro c hc
      have : c = 'a' := (List.eq_of_mem_replicate hc)
      rw [this]
      rfl)
    (by rw [List.length_replicate]; omega)
  exact ⟨h.2, by omega⟩

/-- C7 (amended): every Symbol row the indexer creates stores
`get_symbol_signature` of its cursor; when source text is available the
signature is the text whitespace-collapsed to single spaces, kept whole at
up to 500 characters and otherwise truncated to the first 500 characters
plus a three-character ellipsis marker (so 503 characters in total, not at
most 500); when the source text is unavailable the signature falls back to
the display name (or the spelling when that is empty), with no length
bound. -/
theorem C7_signature_amended :
    (∀ (s : Session) (fid : Nat) (n : Node) (s' : Session) (sym : SymbolRec),
      get_or_create_symbol s fid (some n) = (s', some sym) →
      sym ∈ s.cur.symbols ∨ sym.signature = get_symbol_signature n) ∧
    (∀ (n : Node) (raw : String), n.data.srcText = some raw →
      ((String.intercalate " " (pyWords raw)).length ≤ 500 →
        get_symbol_signature n = String.intercalate " " (pyWords raw)) ∧
      (500 < (String.intercalate " " (pyWords raw)).length →
        get_symbol_signature n =
          pyTake (String.intercalate " " (pyWords raw)) 500 ++ "..." ∧
        (get_symbol_signature n).length = 503)) ∧
    (∀ n : Node, n.data.srcText = none →
      get_symbol_signature n =
        if n.data.displayname.isEmpty then n.data.spelling else n.data.displayname) := by
  refine ⟨?_, ?_, ?_⟩
  · intro s fid n s' sym h
    by_cases hu : n.data.usr.isEmpty
    · simp [get_or_create_symbol, hu] at h
    · rcases hf : s.cur.symbols.find? (fun t => t.usr == n.data.usr) with _ | sym0
      · right
        simp [get_or_create_symbol, hu, hf] at h
        rw [← h.2]
      · left
        simp [get_or_create_symbol, hu, hf] at h
        rw [← h.2]
        exact List.mem_of_find?_eq_some hf
  · intro n raw hsrc
    constructor
    · intro hle
      rw [get_symbol_signature, hsrc]
      simp only []
      rw [if_neg (by omega)]
    · intro hgt
      have hsig : get_symbol_signature n =
          pyTake (String.intercalate " " (pyWords raw)) 500 ++ "..." := by
        rw [get_symbol_signature, hsrc]
        simp only []
        rw [if_pos (by omega)]
      refine ⟨hsig, ?_⟩
      rw [hsig]
      have htake : (pyTake (String.intercalate " " (pyWords raw)) 500).length =
          min 500 (String.intercalate " " (pyWords raw)).length := by
        rcases hi : String.intercalate " " (pyWords raw) with ⟨data⟩
        simp [pyTake, List.length_take]
      have hdots : ("..." : String).length = 3 := rfl
      rw [String.length_append, htake, hdots]
      omega
  · intro n hsrc
    rw [get_symbol_signature, hsrc]

/-- Witness for C7: the truncation branch at the 501-character extent text
and the display-name fallback at `libFun`. -/
theorem C7_witness :
    get_symbol_signature longNode =
      pyTake (String.intercalate " " (pyWords longText)) 500 ++ "..." ∧
    get_symbol_signature libFun = "lib()" := by
  have hcol : String.intercalate " " (pyWords longText) = longText := by
    have hw : pyWords longText = [longText] :=
      pyWords_no_ws (List.replicate 501 'a')
        (by
          intro c hc
          have : c = 'a' := (List.eq_of_mem_replicate hc)
          rw [this]
          rfl)
        (by
          intro he
          have := congrArg List.length he
          rw [List.length_replicate] at this
          simp at this)
    rw [hw]
    exact intercalate_single longText
  constructor
  · have h := (C7_signature_amended.2.1 longNode longText rfl).2
      (by
        rw [hcol]
        show 500 < (List.replicate 501 'a').length
        rw [List.length_replicate]
        omega)
    exact h.1
  · have h := C7_signature_amended.2.2 libFun rfl
    rw [h]
    rfl

/-- `scope_step` only touches the session through
`get_or_create_symbol`. -/
theorem scope_step_pres (P : Session → Prop) (fid : Nat) (fpath : String)
    (hgoc : ∀ s c, P s → P (get_or_create_symbol s fid c).1)
    (s : Session) (n : Node) (parent : Option Nat) (h : P s) :
    P (scope_step fid fpath s n parent).1 := by
  unfold scope_step
  by_cases hc : (defnKind n.data.kind && (n.data.locFile == some fpath)) = true
  · rw [if_pos hc]
    split
    · rename_i s1 sym hg
      have hp := hgoc s (some n) h
      rw [hg] at hp
      exact hp
    · rename_i s1 hg
      have hp := hgoc s (some n) h
      rw [hg] at hp
      exact hp
  · rw [if_neg hc]
    exact h

/-- `ref_step` only touches the session through `get_or_create_symbol` and
`addReference`. -/
theorem ref_step_pres (P : Session → Prop) (fid : Nat)
    (hgoc : ∀ s c, P s → P (get_or_create_symbol s fid c).1)
    (href : ∀ s r, P s → P (s.addReference r))
    (s : Session) (n : Node) (parent : Option Nat) (w : Bool) (h : P s) :
    P (ref_step fid s n parent w) := by
  unfold ref_step
  split
  · exact h
  · rename_i pid
    by_cases hp : pid = 0
    · rw [if_pos hp]
      exact h
    · rw [if_neg hp]
      split
      · rename_i rk tgt hk ht
        split
        · rename_i s1 tsym hg
          have hpr := hgoc s (some tgt) h
          rw [hg] at hpr
          exact href s1 _ hpr
        · rename_i s1 hg
          have hpr := hgoc s (some tgt) h
          rw [hg] at hpr
          exact hpr
      · exact h

mutual

/-- Any session predicate preserved by `get_or_create_symbol` and
`addReference` is preserved by the traversal of a node, also across a
raise. -/
theorem visit_node_pres (P : Session → Prop) (fid : Nat) (fpath : String)
    (hgoc : ∀ s c, P s → P (get_or_create_symbol s fid c).1)
    (href : ∀ s r, P s → P (s.addReference r)) :
    ∀ (n : Node) (s : Session) (parent : Option Nat) (w : Bool), P s →
      P (exceptSession (visit_node fid fpath s n parent w))
  | Node.mk d dc rc children, s, parent, w, h => by
    rw [visit_node]
    by_cases hr : d.raises
    · rw [if_pos hr]
      exact h
    · rw [if_neg hr]
      simp only []
      split
      · split
        · exact ref_step_pres P fid hgoc href _ _ parent w
            (scope_step_pres P fid fpath hgoc s _ parent h)
        · rename_i c0 rest heq
          have h1 := scope_step_pres P fid fpath hgoc s
            (Node.mk d dc rc (c0 :: rest)) parent h
          have h2 := ref_step_pres P fid hgoc href _
            (Node.mk d dc rc (c0 :: rest)) parent w h1
          split
          · rename_i s3 hv
            have h3 := visit_node_pres P fid fpath hgoc href c0 _ parent true h2
            rw [hv] at h3
            exact visit_list_pres P fid fpath hgoc href rest s3 parent false h3
          · rename_i e hv
            have h3 := visit_node_pres P fid fpath hgoc href c0 _ parent true h2
            rw [hv] at h3
            exact h3
      · exact visit_list_pres P fid fpath hgoc href children _ _ false
          (ref_step_pres P fid hgoc href _ _ parent w
            (scope_step_pres P fid fpath hgoc s _ parent h))

/-- List version of `visit_node_pres`. -/
theorem visit_list_pres (P : Session → Prop) (fid : Nat) (fpath : String)
    (hgoc : ∀ s c, P s → P (get_or_create_symbol s fid c).1)
    (href : ∀ s r, P s → P (s.addReference r)) :
    ∀ (l : List Node) (s : Session) (scope : Option Nat) (w : Bool), P s →
      P (exceptSession (visit_list fid fpath s l scope w))
  | [], s, scope, w, h => by
    rw [visit_list]
    exact h
  | c :: cs, s, scope, w, h => by
    rw [visit_list]
    rcases hv : visit_node fid fpath s c scope w with s2 | s2
    · have h2 := visit_node_pres P fid fpath hgoc href c s scope w h
      rw [hv] at h2
      exact h2
    · have h2 := visit_node_pres P fid fpath hgoc href c s scope w h
      rw [hv] at h2
      exact visit_list_pres P fid fpath hgoc href cs s2 scope w h2

end

/-- `get_or_create_symbol` either leaves the session untouched (no cursor,
no usr, or an existing row) or adds-and-commits one fresh row whose
`file_id` is the indexed file and whose usr is new to the table. -/
theorem goc_session_cases (s : Session) (fid : Nat) (c : Option Node) :
    (get_or_create_symbol s fid c).1 = s ∨
    ∃ sym : SymbolRec, (get_or_create_symbol s fid c).1 = (s.addSymbol sym).commit ∧
      sym.file_id = fid ∧ (∀ t ∈ s.cur.symbols, ¬ t.usr = sym.usr) := by
  rcases c with _ | n
  · left
    rfl
  · by_cases hu : n.data.usr.isEmpty
    · left
      simp [get_or_create_symbol, hu]
    · rcases hf : s.cur.symbols.find? (fun t => t.usr == n.data.usr) with _ | sym0
      · right
        refine ⟨{ id := s.cur.nextSymbolId, name := n.data.spelling, usr := n.data.usr,
                  kind := kind_map n.data.kind, signature := get_symbol_signature n,
                  file_id := fid, line := n.data.line, column := n.data.col,
                  end_line := get_symbol_end_line n,
                  cyclomatic_complexity :=
                    if n.data.kind = CKind.FUNCTION_DECL then
                      calculate_cyclomatic_complexity n
                    else 0,
                  is_static := n.data.storage = StorageClassKind.staticSC,
                  isExternal := n.data.storage = StorageClassKind.externSC,
                  is_definition := n.data.isDefn }, ?_, rfl, ?_⟩
        · simp [get_or_create_symbol, hu, hf]
        · intro t ht heq
          have hn := List.find?_eq_none.mp hf t ht
          simp only [beq_iff_eq] at hn
          exact hn heq
      · left
        simp [get_or_create_symbol, hu, hf]

/-- Fields of the session that `extract_includes` leaves alone. -/
theorem extract_includes_fields (s : Session) (fid : Nat) (fpath : String) (tu : TU) :
    (extract_includes s fid fpath tu).cur.symbols = s.cur.symbols ∧
    (extract_includes s fid fpath tu).cur.projects = s.cur.projects ∧
    (extract_includes s fid fpath tu).saved = s.saved := by
  unfold extract_includes
  generalize tu.inclusions = l
  induction l generalizing s with
  | nil => exact ⟨rfl, rfl, rfl⟩
  | cons i l ih =>
    simp only [List.foldl_cons]
    by_cases hc : (i.sourcePath != fpath) = true
    · rw [if_pos hc]
      exact ih s
    · rw [if_neg hc]
      rcases ih (s.addInclude
        { source_file_id := fid, target_path := i.targetPath,
          target_file_id := (s.cur.files.find? (fun f => f.path == i.targetPath)).map
            (fun f => f.id), line := i.line }) with ⟨h1, h2, h3⟩
      exact ⟨h1, h2, h3⟩

/-- Unfolding of `index_file` on a parse failure. -/
theorem index_file_none_eq (s : Session) (pid : Option Nat) (p : String) (m : Nat) :
    index_file s pid p m none =
      ((((get_or_create_file s p m pid).1.deleteSymbolsByFile
          (get_or_create_file s p m pid).2.id).deleteIncludesBySource
          (get_or_create_file s p m pid).2.id).commit).rollback := rfl

/-- Unfolding of `index_file` on a successful parse. -/
theorem index_file_some_eq (s : Session) (pid : Option Nat) (p : String) (m : Nat)
    (tu : TU) :
    index_file s pid p m (some tu) =
      (match visit_node (get_or_create_file s p m pid).2.id p
          (extract_includes ((((get_or_create_file s p m pid).1.deleteSymbolsByFile
              (get_or_create_file s p m pid).2.id).deleteIncludesBySource
              (get_or_create_file s p m pid).2.id).commit)
            (get_or_create_file s p m pid).2.id p tu) tu.root none false with
        | Except.ok s2 => s2.commit
        | Except.error s2 => s2.rollback) := rfl

/-- Any session predicate preserved by the store primitives is preserved by
`index_file`. -/
theorem index_file_pres (P : Session → Prop)
    (hGF : ∀ s path m pid, P s → P (get_or_create_file s path m pid).1)
    (hDel : ∀ (s : Session) (fid : Nat), P s → P (s.deleteSymbolsByFile fid))
    (hDelI : ∀ (s : Session) (fid : Nat), P s → P (s.deleteIncludesBySource fid))
    (hCommit : ∀ s : Session, P s → P s.commit)
    (hRollback : ∀ s : Session, P s → P s.rollback)
    (hInc : ∀ s fid fpath tu, P s → P (extract_includes s fid fpath tu))
    (hgoc : ∀ fid s c, P s → P (get_or_create_symbol s fid c).1)
    (href : ∀ (s : Session) (r : RefRec), P s → P (s.addReference r)) :
    ∀ (s : Session) (pid : Option Nat) (p : String) (m : Nat) (parsed : Option TU),
      P s → P (index_file s pid p m parsed) := by
  intro s pid p m parsed h
  have h2 : P ((((get_or_create_file s p m pid).1.deleteSymbolsByFile
      (get_or_create_file s p m pid).2.id).deleteIncludesBySource
      (get_or_create_file s p m pid).2.id).commit) :=
    hCommit _ (hDelI _ _ (hDel _ _ (hGF s p m pid h)))
  rcases parsed with _ | tu
  · rw [index_file_none_eq]
    exact hRollback _ h2
  · rw [index_file_some_eq]
    have h3 := hInc _ (get_or_create_file s p m pid).2.id p tu h2
    have h4 := visit_node_pres P (get_or_create_file s p m pid).2.id p (hgoc _) href
      tu.root _ none false h3
    split
    · rename_i s4 hv
      rw [hv] at h4
      exact hCommit _ h4
    · rename_i s4 hv
      rw [hv] at h4
      exact hRollback _ h4

/-- Any session predicate preserved by `index_file` and by committed project
updates is preserved by the indexing loop. -/
theorem scanLoop_pres (P : Session → Prop)
    (hIdx : ∀ (s : Session) (pid : Option Nat) (p : String) (m : Nat)
      (parsed : Option TU), P s → P (index_file s pid p m parsed))
    (hUpd : ∀ (s : Session) (pid : Nat) (f : ProjectRec → ProjectRec),
      P s → P ((s.updateProject pid f).commit)) :
    ∀ (jobs : List FileJob) (s : Session) (pid total : Nat) (hasProj : Bool),
      P s → P (scanLoop s pid jobs total hasProj) := by
  intro jobs
  unfold scanLoop
  generalize jobs.enum = l
  induction l with
  | nil =>
    intro s pid total hasProj h
    exact h
  | cons ij l ih =>
    intro s pid total hasProj h
    simp only [List.foldl_cons]
    apply ih
    have h1 := hIdx s (some pid) ij.2.path ij.2.mtime ij.2.parsed h
    by_cases hc : ((ij.1 + 1) % 10 == 0 && hasProj) = true
    · rw [if_pos hc]
      exact hUpd _ _ _ h1
    · rw [if_neg hc]
      exact h1

/-- Unfolding of `scan_project` without a top-level failure. -/
theorem scan_project_none_eq (s : Session) (pid : Nat) (jobs : List FileJob) :
    scan_project s pid jobs none =
      (if s.cur.projects.any (fun p => p.id == pid) then
        ((scanLoop (scan_project_start s pid) pid jobs jobs.length
            (s.cur.projects.any (fun p => p.id == pid))).updateProject pid (fun p =>
          { p with scan_status := ScanStatus.completed, scan_progress := (1, 1),
                   scan_message := "Scan complete. Indexed " ++
                     toString jobs.length ++ " files." })).commit
      else scanLoop (scan_project_start s pid) pid jobs jobs.length
        (s.cur.projects.any (fun p => p.id == pid))) := rfl

/-- Unfolding of `scan_project` when the top-level body raises after `k`
files. -/
theorem scan_project_some_eq (s : Session) (pid : Nat) (jobs : List FileJob) (k : Nat) :
    scan_project s pid jobs (some k) =
      (if s.cur.projects.any (fun p => p.id == pid) then
        ((scanLoop (scan_project_start s pid) pid (jobs.take k) jobs.length
            (s.cur.projects.any (fun p => p.id == pid))).updateProject pid (fun p =>
          { p with scan_status := ScanStatus.failed,
                   scan_message := "Scan failed" })).commit
      else scanLoop (scan_project_start s pid) pid (jobs.take k) jobs.length
        (s.cur.projects.any (fun p => p.id == pid))) := rfl

/-- Any session predicate preserved by `index_file` and by committed project
updates is preserved by a whole project scan. -/
theorem scan_project_pres (P : Session → Prop)
    (hIdx : ∀ (s : Session) (pid : Option Nat) (p : String) (m : Nat)
      (parsed : Option TU), P s → P (index_file s pid p m parsed))
    (hUpd : ∀ (s : Session) (pid : Nat) (f : ProjectRec → ProjectRec),
      P s → P ((s.updateProject pid f).commit)) :
    ∀ (s : Session) (pid : Nat) (jobs : List FileJob) (topFail : Option Nat),
      P s → P (scan_project s pid jobs topFail) := by
  intro s pid jobs topFail h
  have hstart : P (scan_project_start s pid) := by
    unfold scan_project_start
    split
    · exact hUpd _ _ _ h
    · exact h
  have hloop := scanLoop_pres P hIdx hUpd
  rcases topFail with _ | k
  · rw [scan_project_none_eq]
    split
    · exact hUpd _ _ _ (hloop jobs _ pid jobs.length _ hstart)
    · exact hloop jobs _ pid jobs.length _ hstart
  · rw [scan_project_some_eq]
    split
    · exact hUpd _ _ _ (hloop (jobs.take k) _ pid jobs.length _ hstart)
    · exact hloop (jobs.take k) _ pid jobs.length _ hstart

/-- `get_or_create_symbol` keeps the usrs of the symbol table pairwise
distinct (it only creates a row after the lookup by usr fails). -/
theorem goc_pres_usrNodup (fid : Nat) (s : Session) (c : Option Node)
    (h : sessionUsrNodup s) : sessionUsrNodup (get_or_create_symbol s fid c).1 := by
  rcases goc_session_cases s fid c with he | ⟨sym, he, _, hfresh⟩
  · rw [he]
    exact h
  · rw [he]
    have hcur : usrNodup ((s.addSymbol sym).commit).cur := by
      show (s.cur.symbols ++ [sym]).Pairwise (fun a b => a.usr ≠ b.usr)
      rw [List.pairwise_append]
      refine ⟨h.1, List.pairwise_singleton _ _, ?_⟩
      intro a ha b hb
      rw [List.mem_singleton] at hb
      rw [hb]
      exact hfresh a ha
    exact ⟨hcur, hcur⟩

/-- `get_or_create_file` does not touch the symbol table. -/
theorem gf_pres_usrNodup (s : Session) (path : String) (m : Nat) (pid : Option Nat)
    (h : sessionUsrNodup s) : sessionUsrNodup (get_or_create_file s path m pid).1 := by
  unfold get_or_create_file
  split
  · exact h
  · exact ⟨h.1, h.1⟩

/-- Deleting rows keeps pairwise-distinct usrs. -/
theorem del_pres_usrNodup (s : Session) (fid : Nat) (h : sessionUsrNodup s) :
    sessionUsrNodup (s.deleteSymbolsByFile fid) :=
  ⟨List.Pairwise.sublist (List.filter_sublist _) h.1, h.2⟩

/-- C3: `Symbol.usr` uniqueness is an invariant.  `get_or_create_symbol`
preserves it and never adds a row when one with the cursor's usr already
exists (later encounters resolve to the existing row); `index_file` —
also run twice on the same file — and `scan_project` preserve it, so at
every instant there is at most one Symbol row per distinct usr. -/
theorem C3_usr_uniqueness :
    (∀ (s : Session) (fid : Nat) (c : Option Node), sessionUsrNodup s →
      sessionUsrNodup (get_or_create_symbol s fid c).1) ∧
    (∀ (s : Session) (fid : Nat) (n : Node) (sym : SymbolRec),
      s.cur.symbols.find? (fun t => t.usr == n.data.usr) = some sym →
      (get_or_create_symbol s fid (some n)).1 = s) ∧
    (∀ (s : Session) (pid : Option Nat) (p : String) (m : Nat) (parsed : Option TU),
      sessionUsrNodup s → sessionUsrNodup (index_file s pid p m parsed)) ∧
    (∀ (s : Session) (pid : Option Nat) (p : String) (m : Nat) (parsed : Option TU),
      sessionUsrNodup s →
      sessionUsrNodup (index_file (index_file s pid p m parsed) pid p m parsed)) ∧
    (∀ (s : Session) (pid : Nat) (jobs : List FileJob) (topFail : Option Nat),
      sessionUsrNodup s → sessionUsrNodup (scan_project s pid jobs topFail)) := by
  have hInc : ∀ (s : Session) (fid : Nat) (fpath : String) (tu : TU),
      sessionUsrNodup s → sessionUsrNodup (extract_includes s fid fpath tu) := by
    intro s fid fpath tu h
    rcases extract_includes_fields s fid fpath tu with ⟨h1, _, h3⟩
    constructor
    · show (extract_includes s fid fpath tu).cur.symbols.Pairwise _
      rw [h1]
      exact h.1
    · show (extract_includes s fid fpath tu).saved.symbols.Pairwise _
      rw [h3]
      exact h.2
  have hIdx := index_file_pres sessionUsrNodup
    gf_pres_usrNodup
    del_pres_usrNodup
    (fun s fid h => ⟨h.1, h.2⟩)
    (fun s h => ⟨h.1, h.1⟩)
    (fun s h => ⟨h.2, h.2⟩)
    hInc
    (fun fid s c h => goc_pres_usrNodup fid s c h)
    (fun s r h => h)
  refine ⟨fun s fid c h => goc_pres_usrNodup fid s c h, ?_, hIdx, ?_, ?_⟩
  · intro s fid n sym hfind
    by_cases hu : n.data.usr.isEmpty
    · simp [get_or_create_symbol, hu]
    · simp [get_or_create_symbol, hu, hfind]
  · intro s pid p m parsed h
    exact hIdx _ _ _ _ _ (hIdx _ _ _ _ _ h)
  · exact scan_project_pres sessionUsrNodup hIdx (fun s pid f h => ⟨h.1, h.1⟩)

/-- Witness for C3: a full scan of the example project starting from the
empty store keeps usr uniqueness. -/
theorem C3_witness : sessionUsrNodup (scan_project (sessionOf projDB) 1 scanJobs none) :=
  C3_usr_uniqueness.2.2.2.2 (sessionOf projDB) 1 scanJobs none
    ⟨List.Pairwise.nil, List.Pairwise.nil⟩

/-- A committed session knows no symbols beyond its current view. -/
theorem symsWithin_commit_subset (s : Session) :
    ∀ x ∈ symsWithin s.commit, x ∈ symsWithin s := by
  intro x hx
  rcases List.mem_append.mp hx with h | h <;>
    exact List.mem_append.mpr (Or.inl h)

/-- A rolled-back session knows no symbols beyond its committed state. -/
theorem symsWithin_rollback_subset (s : Session) :
    ∀ x ∈ symsWithin s.rollback, x ∈ symsWithin s := by
  intro x hx
  rcases List.mem_append.mp hx with h | h <;>
    exact List.mem_append.mpr (Or.inr h)

/-- `get_or_create_file` adds no symbol rows. -/
theorem symsWithin_gf_subset (s : Session) (path : String) (m : Nat) (pid : Option Nat) :
    ∀ x ∈ symsWithin (get_or_create_file s path m pid).1, x ∈ symsWithin s := by
  unfold get_or_create_file
  split
  · intro x hx
    exact hx
  · intro x hx
    rcases List.mem_append.mp hx with h | h <;>
      exact List.mem_append.mpr (Or.inl h)

/-- Deletions only shrink the symbol table. -/
theorem symsWithin_del_subset (s : Session) (fid : Nat) :
    ∀ x ∈ symsWithin (s.deleteSymbolsByFile fid), x ∈ symsWithin s := by
  intro x hx
  rcases List.mem_append.mp hx with h | h
  · exact List.mem_append.mpr (Or.inl (List.mem_of_mem_filter h))
  · exact List.mem_append.mpr (Or.inr h)

/-- `deleteIncludesBySource` does not touch symbols. -/
theorem symsWithin_delI_subset (s : Session) (fid : Nat) :
    ∀ x ∈ symsWithin (s.deleteIncludesBySource fid), x ∈ symsWithin s :=
  fun x hx => hx

/-- `extract_includes` does not touch symbols. -/
theorem symsWithin_extract_subset (s : Session) (fid : Nat) (fpath : String) (tu : TU) :
    ∀ x ∈ symsWithin (extract_includes s fid fpath tu), x ∈ symsWithin s := by
  rcases extract_includes_fields s fid fpath tu with ⟨h1, _, h3⟩
  intro x hx
  rcases List.mem_append.mp hx with h | h
  · rw [h1] at h
    exact List.mem_append.mpr (Or.inl h)
  · rw [h3] at h
    exact List.mem_append.mpr (Or.inr h)

/-- C9: every Symbol row created while indexing a file — including rows
created on demand for reference targets declared in other files — carries
`file_id` equal to the file currently being indexed (`self.current_file_id`,
that is the id returned by `get_or_create_file` for the indexed path),
never the file containing the symbol's declaration. -/
theorem C9_created_symbols_get_current_file_id :
    (∀ (s : Session) (fid : Nat) (c : Option Node),
      ∀ sym ∈ symsWithin (get_or_create_symbol s fid c).1,
        sym ∈ symsWithin s ∨ sym.file_id = fid) ∧
    (∀ (s : Session) (pid : Option Nat) (p : String) (m : Nat) (parsed : Option TU),
      ∀ sym ∈ symsWithin (index_file s pid p m parsed),
        sym ∈ symsWithin s ∨ sym.file_id = (get_or_create_file s p m pid).2.id) := by
  have hgocGen : ∀ (t : Session) (fid : Nat) (c : Option Node),
      ∀ sym ∈ symsWithin (get_or_create_symbol t fid c).1,
        sym ∈ symsWithin t ∨ sym.file_id = fid := by
    intro t fid c sym hx
    rcases goc_session_cases t fid c with he | ⟨sy, he, hfi, _⟩
    · rw [he] at hx
      exact Or.inl hx
    · rw [he] at hx
      have hx' : sym ∈ t.cur.symbols ++ [sy] := by
        rcases List.mem_append.mp hx with h | h
        · exact h
        · exact h
      rcases List.mem_append.mp hx' with h | h
      · exact Or.inl (List.mem_append.mpr (Or.inl h))
      · right
        rw [List.mem_singleton] at h
        rw [h]
        exact hfi
  refine ⟨hgocGen, ?_⟩
  intro s pid p m parsed
  have hP : ∀ (u t : Session), (∀ x ∈ symsWithin u, x ∈ symsWithin t) →
      (∀ sym ∈ symsWithin t, sym ∈ symsWithin s ∨
        sym.file_id = (get_or_create_file s p m pid).2.id) →
      ∀ sym ∈ symsWithin u, sym ∈ symsWithin s ∨
        sym.file_id = (get_or_create_file s p m pid).2.id :=
    fun u t hsub ht sym hs => ht sym (hsub sym hs)
  have hbase : ∀ sym ∈ symsWithin s, sym ∈ symsWithin s ∨
      sym.file_id = (get_or_create_file s p m pid).2.id := fun sym hs => Or.inl hs
  have h1 : ∀ sym ∈ symsWithin (get_or_create_file s p m pid).1,
      sym ∈ symsWithin s ∨ sym.file_id = (get_or_create_file s p m pid).2.id :=
    hP _ _ (symsWithin_gf_subset s p m pid) hbase
  have h1a : ∀ sym ∈ symsWithin ((get_or_create_file s p m pid).1.deleteSymbolsByFile
      (get_or_create_file s p m pid).2.id),
      sym ∈ symsWithin s ∨ sym.file_id = (get_or_create_file s p m pid).2.id :=
    hP _ _ (symsWithin_del_subset _ _) h1
  have h1b : ∀ sym ∈ symsWithin (((get_or_create_file s p m pid).1.deleteSymbolsByFile
      (get_or_create_file s p m pid).2.id).deleteIncludesBySource
      (get_or_create_file s p m pid).2.id),
      sym ∈ symsWithin s ∨ sym.file_id = (get_or_create_file s p m pid).2.id :=
    hP _ _ (symsWithin_delI_subset _ _) h1a
  have h2 : ∀ sym ∈ symsWithin ((((get_or_create_file s p m pid).1.deleteSymbolsByFile
      (get_or_create_file s p m pid).2.id).deleteIncludesBySource
      (get_or_create_file s p m pid).2.id).commit),
      sym ∈ symsWithin s ∨ sym.file_id = (get_or_create_file s p m pid).2.id :=
    hP _ _ (symsWithin_commit_subset _) h1b
  rcases parsed with _ | tu
  · rw [index_file_none_eq]
    exact hP _ _ (symsWithin_rollback_subset _) h2
  · rw [index_file_some_eq]
    have h3 : ∀ sym ∈ symsWithin (extract_includes
        ((((get_or_create_file s p m pid).1.deleteSymbolsByFile
          (get_or_create_file s p m pid).2.id).deleteIncludesBySource
          (get_or_create_file s p m pid).2.id).commit)
        (get_or_create_file s p m pid).2.id p tu),
        sym ∈ symsWithin s ∨ sym.file_id = (get_or_create_file s p m pid).2.id :=
      hP _ _ (symsWithin_extract_subset _ (get_or_create_file s p m pid).2.id p tu) h2
    have h4 := visit_node_pres
      (fun t => ∀ sym ∈ symsWithin t, sym ∈ symsWithin s ∨
        sym.file_id = (get_or_create_file s p m pid).2.id)
      (get_or_create_file s p m pid).2.id p
      (fun t c ht => by
        intro sym hx
        rcases hgocGen t (get_or_create_file s p m pid).2.id c sym hx with hin | hfi
        · exact ht sym hin
        · exact Or.inr hfi)
      (fun t r ht => ht)
      tu.root _ none false h3
    split
    · rename_i s4 hv
      rw [hv] at h4
      exact hP _ _ (symsWithin_commit_subset _) h4
    · rename_i s4 hv
      rw [hv] at h4
      exact hP _ _ (symsWithin_rollback_subset _) h4

/-- Witness for C9: the library function declared in `/p/lib.h` gets a
Symbol row whose `file_id` is the id of `/p/m2.c`, the file being
indexed. -/
theorem C9_witness :
    libRec ∈ symsWithin (index_file (sessionOf emptyDB) (some 1) "/p/m2.c" 7 (some tuM2)) ∧
    libRec.file_id =
      (get_or_create_file (sessionOf emptyDB) "/p/m2.c" 7 (some 1)).2.id ∧
    libFun.data.locFile = some "/p/lib.h" := by
  have hmem : libRec ∈ symsWithin (index_file (sessionOf emptyDB) (some 1) "/p/m2.c" 7
      (some tuM2)) := by decide
  have h := C9_created_symbols_get_current_file_id.2 (sessionOf emptyDB) (some 1)
    "/p/m2.c" 7 (some tuM2) libRec hmem
  rcases h with hin | hfi
  · exact absurd hin (by decide)
  · exact ⟨hmem, hfi, by decide⟩

/-- `find?` commutes with a map that preserves the predicate. -/
theorem find?_map_pred (l : List ProjectRec) (g : ProjectRec → ProjectRec)
    (pr : ProjectRec → Bool) (hpr : ∀ p, pr (g p) = pr p) :
    (l.map g).find? pr = (l.find? pr).map g := by
  induction l with
  | nil => rfl
  | cons q l ih =>
    rw [List.map_cons]
    by_cases hq : pr q = true
    · rw [List.find?_cons_of_pos _ (by rw [hpr]; exact hq),
          List.find?_cons_of_pos _ hq]
      rfl
    · rw [List.find?_cons_of_neg _ (by rw [hpr]; exact hq),
          List.find?_cons_of_neg _ hq]
      exact ih

/-- The update applied by `updateProject` preserves the id lookup when the
row transformer keeps ids. -/
theorem updateProject_keeps_pred (pid' : Nat) (f : ProjectRec → ProjectRec)
    (hid : ∀ p, (f p).id = p.id) (pid : Nat) (p : ProjectRec) :
    ((if p.id = pid' then f p else p).id == pid) = (p.id == pid) := by
  by_cases hp : p.id = pid'
  · rw [if_pos hp, hid]
  · rw [if_neg hp]

/-- The status seen after updating-and-committing the project rows with a
given id. -/
theorem projStatus_update_commit (s : Session) (pid : Nat) (f : ProjectRec → ProjectRec)
    (hid : ∀ p, (f p).id = p.id) :
    projStatus ((s.updateProject pid f).commit) pid =
      (s.cur.projects.find? (fun p => p.id == pid)).map (fun p => (f p).scan_status) := by
  show ((s.cur.projects.map (fun p => if p.id = pid then f p else p)).find?
      (fun p => p.id == pid)).map (fun p => p.scan_status) = _
  rw [find?_map_pred _ _ _ (updateProject_keeps_pred pid f hid pid)]
  rcases hf : s.cur.projects.find? (fun p => p.id == pid) with _ | q
  · rw [hf]
    rfl
  · rw [hf]
    have hq : q.id = pid := by simpa using List.find?_some hf
    show some ((if q.id = pid then f q else q).scan_status) = some ((f q).scan_status)
    rw [if_pos hq]

/-- `statusBoth` survives committing an update that keeps ids and
statuses. -/
theorem statusBoth_update_commit (s : Session) (pid pid' : Nat) (st : ScanStatus)
    (f : ProjectRec → ProjectRec) (hid : ∀ p, (f p).id = p.id)
    (hst : ∀ p, (f p).scan_status = p.scan_status)
    (h : statusBoth pid st s) : statusBoth pid st ((s.updateProject pid' f).commit) := by
  have hcur : ((s.updateProject pid' f).commit.cur.projects.find?
      (fun p => p.id == pid)).map (fun p => p.scan_status) = some st := by
    show ((s.cur.projects.map (fun p => if p.id = pid' then f p else p)).find?
        (fun p => p.id == pid)).map (fun p => p.scan_status) = some st
    rw [find?_map_pred _ _ _ (updateProject_keeps_pred pid' f hid pid)]
    rcases hf : s.cur.projects.find? (fun p => p.id == pid) with _ | q
    · have h1 := h.1
      rw [hf] at h1
      exact absurd h1 (by simp)
    · rw [hf]
      have h1 := h.1
      rw [hf] at h1
      show some ((if q.id = pid' then f q else q).scan_status) = some st
      by_cases hq : q.id = pid'
      · rw [if_pos hq, hst]
        exact h1
      · rw [if_neg hq]
        exact h1
  exact ⟨hcur, hcur⟩

/-- `get_or_create_symbol` does not touch the project rows. -/
theorem goc_pres_statusBoth (pid : Nat) (st : ScanStatus) (fid : Nat) (s : Session)
    (c : Option Node) (h : statusBoth pid st s) :
    statusBoth pid st (get_or_create_symbol s fid c).1 := by
  rcases goc_session_cases s fid c with he | ⟨sym, he, _, _⟩
  · rw [he]
    exact h
  · rw [he]
    exact ⟨h.1, h.1⟩

/-- `index_file` never changes the persisted scan status. -/
theorem index_file_pres_statusBoth (pid : Nat) (st : ScanStatus) :
    ∀ (s : Session) (prid : Option Nat) (p : String) (m : Nat) (parsed : Option TU),
      statusBoth pid st s → statusBoth pid st (index_file s prid p m parsed) := by
  apply index_file_pres (statusBoth pid st)
  · intro s path m prid h
    unfold get_or_create_file
    split
    · exact h
    · exact ⟨h.1, h.1⟩
  · intro s fid h
    exact ⟨h.1, h.2⟩
  · intro s fid h
    exact ⟨h.1, h.2⟩
  · intro s h
    exact ⟨h.1, h.1⟩
  · intro s h
    exact ⟨h.2, h.2⟩
  · intro s fid fpath tu h
    rcases extract_includes_fields s fid fpath tu with ⟨_, h2, h3⟩
    constructor
    · show ((extract_includes s fid fpath tu).cur.projects.find? _).map _ = _
      rw [h2]
      exact h.1
    · show ((extract_includes s fid fpath tu).saved.projects.find? _).map _ = _
      rw [h3]
      exact h.2
  · intro fid s c h
    exact goc_pres_statusBoth pid st fid s c h
  · intro s r h
    exact h

/-- The indexing loop never changes the persisted scan status (its progress
updates keep id and status). -/
theorem scanLoop_pres_statusBoth (pid : Nat) (st : ScanStatus) :
    ∀ (jobs : List FileJob) (s : Session) (prid total : Nat) (hasProj : Bool),
      statusBoth pid st s → statusBoth pid st (scanLoop s prid jobs total hasProj) := by
  intro jobs
  unfold scanLoop
  generalize jobs.enum = l
  induction l with
  | nil =>
    intro s prid total hasProj h
    exact h
  | cons ij l ih =>
    intro s prid total hasProj h
    simp only [List.foldl_cons]
    apply ih
    have h1 := index_file_pres_statusBoth pid st s (some prid) ij.2.path ij.2.mtime
      ij.2.parsed h
    by_cases hc : ((ij.1 + 1) % 10 == 0 && hasProj) = true
    · rw [if_pos hc]
      exact statusBoth_update_commit _ pid prid st _ (fun p => rfl) (fun p => rfl) h1
    · rw [if_neg hc]
      exact h1

/-- A found project row makes the `if project:` guard true. -/
theorem hasProj_of_find (s : Session) (pid : Nat)
    (h : (s.cur.projects.find? (fun p => p.id == pid)).isSome = true) :
    s.cur.projects.any (fun p => p.id == pid) = true := by
  rw [List.any_eq_true]
  rcases Option.isSome_iff_exists.mp h with ⟨q, hq⟩
  have h1 := List.find?_some hq
  exact ⟨q, List.mem_of_find?_eq_some hq, by simpa using h1⟩

/-- After the opening block the project's status is `scanning`, committed. -/
theorem scan_start_scanning (s : Session) (pid : Nat)
    (h : (s.cur.projects.find? (fun p => p.id == pid)).isSome = true) :
    statusBoth pid ScanStatus.scanning (scan_project_start s pid) := by
  unfold scan_project_start
  rw [if_pos (hasProj_of_find s pid h)]
  have hcur : (((s.updateProject pid (fun p =>
      { p with scan_status := ScanStatus.scanning, scan_progress := (0, 1),
               scan_message := "Initializing scan..." })).commit).cur.projects.find?
      (fun p => p.id == pid)).map (fun p => p.scan_status) = some ScanStatus.scanning := by
    show ((s.cur.projects.map (fun p => if p.id = pid then
        { p with scan_status := ScanStatus.scanning, scan_progress := (0, 1),
                 scan_message := "Initializing scan..." } else p)).find?
        (fun p => p.id == pid)).map (fun p => p.scan_status) = some ScanStatus.scanning
    rw [find?_map_pred _ _ _ (updateProject_keeps_pred pid (fun p =>
      { p with scan_status := ScanStatus.scanning, scan_progress := (0, 1),
               scan_message := "Initializing scan..." }) (fun p => rfl) pid)]
    rcases Option.isSome_iff_exists.mp h with ⟨q, hq⟩
    rw [hq]
    have hqid : q.id = pid := by simpa using List.find?_some hq
    show some ((if q.id = pid then
        { q with scan_status := ScanStatus.scanning, scan_progress := (0, 1),
                 scan_message := "Initializing scan..." } else q)).scan_status =
      some ScanStatus.scanning
    rw [if_pos hqid]
  exact ⟨hcur, hcur⟩

/-- The terminal status write of a scan: if the status is committed as `st`
when the loop ends and the project row exists, the final
update-and-commit with a constant status lands exactly there. -/
theorem final_status_write (t : Session) (pid : Nat) (stOld stNew : ScanStatus)
    (f : ProjectRec → ProjectRec) (hid : ∀ p, (f p).id = p.id)
    (hst : ∀ p, (f p).scan_status = stNew)
    (h : statusBoth pid stOld t) :
    projStatus ((t.updateProject pid f).commit) pid = some stNew := by
  rw [projStatus_update_commit _ pid f hid]
  rcases hf : t.cur.projects.find? (fun p => p.id == pid) with _ | q
  · have h1 := h.1
    rw [hf] at h1
    exact absurd h1 (by simp)
  · rw [hf]
    show some ((f q).scan_status) = some stNew
    rw [hst q]

/-- C8: a project scan (of an existing project row) sets the persisted
status to `scanning` before indexing and always terminates with `completed`
(graceful completion) or `failed` (top-level exception) — never leaving it
at `scanning` on graceful completion; together with the initial `pending`
default this is exactly the transition chain
`pending → scanning → completed|failed`. -/
theorem C8_scan_status_transitions (s : Session) (pid : Nat) (jobs : List FileJob)
    (h : (s.cur.projects.find? (fun p => p.id == pid)).isSome = true) :
    projStatus (scan_project_start s pid) pid = some ScanStatus.scanning ∧
    projStatus (scan_project s pid jobs none) pid = some ScanStatus.completed ∧
    (∀ k : Nat, projStatus (scan_project s pid jobs (some k)) pid =
      some ScanStatus.failed) := by
  have hb := scan_start_scanning s pid h
  have hany := hasProj_of_find s pid h
  refine ⟨hb.1, ?_, ?_⟩
  · rw [scan_project_none_eq, if_pos hany]
    exact final_status_write _ pid ScanStatus.scanning ScanStatus.completed _
      (fun p => rfl) (fun p => rfl)
      (scanLoop_pres_statusBoth pid ScanStatus.scanning jobs _ pid jobs.length _ hb)
  · intro k
    rw [scan_project_some_eq, if_pos hany]
    exact final_status_write _ pid ScanStatus.scanning ScanStatus.failed _
      (fun p => rfl) (fun p => rfl)
      (scanLoop_pres_statusBoth pid ScanStatus.scanning (jobs.take k) _ pid
        jobs.length _ hb)

/-- Witness for C8: scanning the example project (whose first file's
traversal raises) starts at `scanning` and ends `completed`; a top-level
raise ends `failed`. -/
theorem C8_witness :
    projStatus (scan_project_start (sessionOf projDB) 1) 1 = some ScanStatus.scanning ∧
    projStatus (scan_project (sessionOf projDB) 1 scanJobs none) 1 =
      some ScanStatus.completed ∧
    projStatus (scan_project (sessionOf projDB) 1 scanJobs (some 0)) 1 =
      some ScanStatus.failed := by
  have h := C8_scan_status_transitions (sessionOf projDB) 1 scanJobs (by decide)
  exact ⟨h.1, h.2.1, h.2.2 0⟩

/-- C2, counterexample: indexing `/p/bad.c` raises during the AST traversal
(at `boomNode`, after the variable `v` was already created and committed),
yet the store afterwards still holds the Symbol row written for `v` while
indexing that file — the partial write was **not** rolled back, because
`get_or_create_symbol` commits each created row immediately and the final
`rollback` only discards pending writes. -/
theorem C2_counterexample :
    boomNode.data.raises = true ∧
    (index_file (sessionOf emptyDB) (some 1) "/p/bad.c" 5 (some tuBad)).cur.symbols.map
      (fun t => t.usr) = ["c:bad.c@v"] ∧
    ¬ (index_file (sessionOf emptyDB) (some 1) "/p/bad.c" 5 (some tuBad)).cur.symbols
      = [] := by
  exact ⟨rfl, by decide, by decide⟩

/-- C2 (amended): a failure while indexing one file is caught and answered
with a rollback of the *uncommitted* writes — the session always ends at a
committed state — but writes already committed during that file's
processing persist: a parse failure leaves exactly the state after the
committed pre-parse delete of the file's old rows, and Symbol rows
committed before a traversal raise survive (see the counterexample); the
scan continues with the remaining files and graceful completion still
marks the scan `completed`, never `failed`. -/
theorem C2_failure_rollback_amended :
    (∀ (s : Session) (pid : Option Nat) (p : String) (m : Nat) (parsed : Option TU),
      (index_file s pid p m parsed).cur = (index_file s pid p m parsed).saved) ∧
    (∀ (s : Session) (pid : Option Nat) (p : String) (m : Nat),
      index_file s pid p m none =
        (((get_or_create_file s p m pid).1.deleteSymbolsByFile
            (get_or_create_file s p m pid).2.id).deleteIncludesBySource
            (get_or_create_file s p m pid).2.id).commit) ∧
    (∀ (s : Session) (pid : Nat) (jobs : List FileJob),
      (s.cur.projects.find? (fun p => p.id == pid)).isSome = true →
      projStatus (scan_project s pid jobs none) pid = some ScanStatus.completed) := by
  refine ⟨?_, ?_, ?_⟩
  · intro s pid p m parsed
    rcases parsed with _ | tu
    · rw [index_file_none_eq]
      rfl
    · rw [index_file_some_eq]
      split <;> rfl
  · intro s pid p m
    rfl
  · intro s pid jobs h
    rw [scan_project_none_eq, if_pos (hasProj_of_find s pid h)]
    exact final_status_write _ pid ScanStatus.scanning ScanStatus.completed _
      (fun p => rfl) (fun p => rfl)
      (scanLoop_pres_statusBoth pid ScanStatus.scanning jobs _ pid jobs.length _
        (scan_start_scanning s pid h))

/-- Witness for C2 (amended): the example scan whose first file raises
mid-traversal still completes, indexes the second file, and leaves the
session at a committed state. -/
theorem C2_witness :
    projStatus (scan_project (sessionOf projDB) 1 scanJobs none) 1 =
      some ScanStatus.completed ∧
    (scan_project (sessionOf projDB) 1 scanJobs none).cur.symbols.map
      (fun t => t.usr) = ["c:bad.c@v", "c:good.c@w"] ∧
    (index_file (sessionOf emptyDB) (some 1) "/p/bad.c" 5 (some tuBad)).cur =
      (index_file (sessionOf emptyDB) (some 1) "/p/bad.c" 5 (some tuBad)).saved := by
  refine ⟨C2_failure_rollback_amended.2.2 (sessionOf projDB) 1 scanJobs (by decide),
    by decide,
    C2_failure_rollback_amended.1 (sessionOf emptyDB) (some 1) "/p/bad.c" 5
      (some tuBad)⟩

/-- Step 1 is a no-op for non-declaration kinds. -/
theorem scope_step_skip (fid : Nat) (fpath : String) (s : Session) (n : Node)
    (parent : Option Nat) (h : defnKind n.data.kind = false) :
    scope_step fid fpath s n parent = (s, parent) := by
  unfold scope_step
  rw [if_neg (by simp [h])]

/-- Step 2 is a no-op for nodes of a non-reference kind. -/
theorem ref_step_skip (fid : Nat) (s : Session) (n : Node) (parent : Option Nat)
    (w : Bool) (h : ref_kind_of n w = none) :
    ref_step fid s n parent w = s := by
  unfold ref_step
  split
  · rfl
  · rename_i pid
    by_cases hp : pid = 0
    · rw [if_pos hp]
    · rw [if_neg hp]
      split
      · rename_i rk tgt hk ht
        rw [h] at hk
        exact absurd hk (by simp)
      · rfl

/-- C4: indexing `void f() { int x; int y; x = y + 1; }` records exactly
`(f→x, write)` then `(f→y, read)` — never `(f→x, read)`; and in general an
assignment node (binary/compound-assignment kind with an assignment token)
visits its first child in write context and all remaining children in read
context, skipping the default recursion over its children. -/
theorem C4_write_classification :
    ((index_file (sessionOf emptyDB) (some 1) "/p/m.c" 10 (some tuM)).cur.references =
      [ { source_id := 1, target_id := 2, kind := RefType.write, file_id := 1,
          line := 4, column := 3 },
        { source_id := 1, target_id := 3, kind := RefType.read, file_id := 1,
          line := 4, column := 7 } ]) ∧
    (∀ r ∈ (index_file (sessionOf emptyDB) (some 1) "/p/m.c" 10
        (some tuM)).cur.references, ¬ (r.kind = RefType.read ∧ r.target_id = 2)) ∧
    (∀ (fid : Nat) (fpath : String) (s : Session) (d : NodeData)
      (dc rc : Option Node) (c0 : Node) (rest : List Node) (parent : Option Nat)
      (w : Bool),
      d.raises = false →
      (d.kind = CKind.BINARY_OPERATOR ∨ d.kind = CKind.COMPOUND_ASSIGNMENT_OPERATOR) →
      d.tokens.any (fun t => assignOps.contains t) = true →
      visit_node fid fpath s (Node.mk d dc rc (c0 :: rest)) parent w =
        (match visit_node fid fpath s c0 parent true with
          | Except.ok s3 => visit_list fid fpath s3 rest parent false
          | Except.error e => Except.error e)) := by
  refine ⟨by decide, by decide, ?_⟩
  intro fid fpath s d dc rc c0 rest parent w hr hk ht
  have h1 : scope_step fid fpath s (Node.mk d dc rc (c0 :: rest)) parent = (s, parent) :=
    scope_step_skip fid fpath s _ parent
      (by rcases hk with hk | hk <;> simp [defnKind, Node.data, hk])
  have h2 : ref_step fid s (Node.mk d dc rc (c0 :: rest)) parent w = s :=
    ref_step_skip fid s _ parent w
      (by rcases hk with hk | hk <;> simp [ref_kind_of, Node.data, hk])
  rcases List.any_eq_true.mp ht with ⟨x, hx, hmem⟩
  have hxmem : x ∈ assignOps := by simpa using hmem
  have hA : ((d.kind = CKind.BINARY_OPERATOR ||
      d.kind = CKind.COMPOUND_ASSIGNMENT_OPERATOR) &&
      d.tokens.any (fun t => assignOps.contains t)) = true := by
    rcases hk with hk | hk <;> simp [hk, List.any_eq_true] <;> exact ⟨x, hx, hxmem⟩
  simp [visit_node, hr, hA, h1, h2]
  all_goals first
    | exact ⟨x, hx, hxmem⟩
    | exact fun hcon => absurd hxmem (hcon hk x hx)

/-- With pairwise-distinct symbol ids, filtering the symbol table by an id
yields nothing or exactly one row. -/
theorem filter_by_id_cases (l : List SymbolRec)
    (hnd : l.Pairwise (fun a b => a.id ≠ b.id)) (t : Nat) :
    l.filter (fun sy => sy.id == t) = [] ∨
    ∃ sy, sy ∈ l ∧ sy.id = t ∧ l.filter (fun sy => sy.id == t) = [sy] := by
  induction l with
  | nil => exact Or.inl rfl
  | cons s0 l ih =>
    rcases List.pairwise_cons.mp hnd with ⟨hhead, htail⟩
    by_cases h0 : (s0.id == t) = true
    · right
      refine ⟨s0, List.mem_cons_self _ _, by simpa using h0, ?_⟩
      rw [@List.filter_cons_of_pos SymbolRec (fun sy => sy.id == t) s0 l h0]
      have : l.filter (fun sy => sy.id == t) = [] := by
        apply List.filter_eq_nil.mpr
        intro b hb
        have hne := hhead b hb
        have h0' : s0.id = t := by simpa using h0
        simp [← h0', Ne.symm hne]
      rw [this]
    · rw [@List.filter_cons_of_neg SymbolRec (fun sy => sy.id == t) s0 l h0]
      rcases ih htail with hnil | ⟨sy, hmem, hid, heq⟩
      · exact Or.inl hnil
      · exact Or.inr ⟨sy, List.mem_cons_of_mem _ hmem, hid, heq⟩

/-- Length of the per-reference join block: one when the reference's file is
in the source set and its (unique) target symbol's file is in the target
set, zero otherwise. -/
theorem join_block_length (db : DBState) (hnd : symIdNodup db) (S T : List Nat)
    (r : RefRec) :
    (((db.symbols.filter (fun sy => sy.id == r.target_id)).map
        (fun sy => (r, sy))).filter (fun rs => S.contains rs.1.file_id &&
          T.contains rs.2.file_id)).length =
      (if (S.contains r.file_id &&
          db.symbols.any (fun sy => sy.id == r.target_id &&
            T.contains sy.file_id)) = true then 1 else 0) := by
  rcases filter_by_id_cases db.symbols hnd r.target_id with hnil | ⟨sy, hmem, hid, heq⟩
  · rw [hnil]
    have hany : db.symbols.any (fun sy => sy.id == r.target_id &&
        T.contains sy.file_id) = false := by
      rw [Bool.eq_false_iff]
      intro hany
      rcases List.any_eq_true.mp hany with ⟨sy, hsy, hcond⟩
      rw [Bool.and_eq_true] at hcond
      rcases hcond with ⟨hidb, _⟩
      have : sy ∈ db.symbols.filter (fun sy => sy.id == r.target_id) :=
        List.mem_filter.mpr ⟨hsy, hidb⟩
      rw [hnil] at this
      exact absurd this (List.not_mem_nil sy)
    rw [hany]
    simp
  · rw [heq]
    have hany : db.symbols.any (fun sy2 => sy2.id == r.target_id &&
        T.contains sy2.file_id) = T.contains sy.file_id := by
      by_cases hT : T.contains sy.file_id = true
      · rw [hT]
        rw [List.any_eq_true]
        refine ⟨sy, hmem, ?_⟩
        rw [Bool.and_eq_true]
        exact ⟨by simp [hid], hT⟩
      · rw [Bool.eq_false_iff.mpr hT]
        rw [Bool.eq_false_iff]
        intro hany
        rcases List.any_eq_true.mp hany with ⟨sy2, hsy2, hcond⟩
        rw [Bool.and_eq_true] at hcond
        rcases hcond with ⟨hidb, hTb⟩
        have hin : sy2 ∈ db.symbols.filter (fun sy => sy.id == r.target_id) :=
          List.mem_filter.mpr ⟨hsy2, hidb⟩
        rw [heq] at hin
        rw [List.mem_singleton] at hin
        rw [hin] at hTb
        exact hT hTb
    rw [hany]
    rw [List.map_singleton]
    by_cases hc : (S.contains r.file_id && T.contains sy.file_id) = true
    · rw [if_pos hc]
      rw [List.filter_singleton]
      show (bif S.contains r.file_id && T.contains sy.file_id then
        [(r, sy)] else []).length = 1
      rw [hc]
      rfl
    · rw [if_neg hc]
      rw [List.filter_singleton]
      show (bif S.contains r.file_id && T.contains sy.file_id then
        [(r, sy)] else []).length = 0
      rw [Bool.eq_false_iff.mpr hc]
      rfl

/-- The join-filter block of `_check_layer_violations` counts exactly the
references whose file is in the source set and whose unique target symbol's
file is in the target set. -/
theorem layerViolationRows_length (db : DBState) (hnd : symIdNodup db)
    (S T : List Nat) :
    (layerViolationRows db S T).length =
      (db.references.filter (fun r => S.contains r.file_id &&
        db.symbols.any (fun sy => sy.id == r.target_id &&
          T.contains sy.file_id))).length := by
  unfold layerViolationRows
  generalize db.references = l
  induction l with
  | nil => rfl
  | cons r l ih =>
    rw [List.flatMap_cons, List.filter_append, List.length_append, ih,
      List.filter_cons]
    rw [join_block_length db hnd S T r]
    by_cases hc : (S.contains r.file_id && db.symbols.any (fun sy =>
        sy.id == r.target_id && T.contains sy.file_id)) = true
    · rw [if_pos hc, if_pos hc]
      simp [Nat.add_comm]
    · rw [if_neg hc, if_neg hc]
      simp

/-- Closed form of `_check_layer_violations` once both module lookups
succeed. -/
theorem check_layer_unfold (db : DBState) (rule : RuleRec) (sm tm : ModuleRec)
    (hc : (!truthyOpt rule.source_module_id || !truthyOpt rule.target_module_id) = false)
    (hfs : find_module db (rule.source_module_id.getD 0) = some sm)
    (hft : find_module db (rule.target_module_id.getD 0) = some tm) :
    check_layer_violations db rule =
      if sm.layer < tm.layer then
        (layerViolationRows db
          ((db.files.filter (fun f => f.module_id == some sm.id)).map (fun f => f.id))
          ((db.files.filter (fun f => f.module_id == some tm.id)).map
            (fun f => f.id))).map (fun rs =>
          { rule_id := rule.id
            rule_name := rule.name
            vtype := "layer_violation"
            message := "Lower layer " ++ sm.name ++ " (layer " ++ toString sm.layer ++
              ") calls upper layer " ++ tm.name ++ " (layer " ++ toString tm.layer ++ ")"
            reference_line := rs.1.line
            file_id := rs.1.file_id
            target_symbol := rs.2.name })
      else [] := by
  unfold check_layer_violations
  rw [if_neg (by rw [hc]; exact Bool.false_ne_true)]
  rw [hfs, hft]

/-- The `in_` filters of `_check_layer_violations` test exactly membership
of a file of the module. -/
theorem contains_module_ids (files : List FileRec) (mid x : Nat) :
    ((files.filter (fun f => f.module_id == some mid)).map (fun f => f.id)).contains x =
    files.any (fun f => f.module_id == some mid && f.id == x) := by
  rw [Bool.eq_iff_iff]
  rw [List.elem_iff, List.any_eq_true]
  constructor
  · intro hx
    rcases List.mem_map.mp hx with ⟨f, hf, hid⟩
    rcases List.mem_filter.mp hf with ⟨hfin, hmod⟩
    refine ⟨f, hfin, ?_⟩
    rw [Bool.and_eq_true]
    exact ⟨hmod, by simp [hid]⟩
  · rintro ⟨f, hfin, hcond⟩
    rw [Bool.and_eq_true] at hcond
    rcases hcond with ⟨hmod, hid⟩
    exact List.mem_map.mpr ⟨f, List.mem_filter.mpr ⟨hfin, hmod⟩, by simpa using hid⟩

/-- C6: for an active `layer_violation` rule, violations are produced only
when the source module's layer is strictly below the target module's, and
then exactly one per Reference located in a file of the source module whose
target Symbol lives in a file of the target module; a rule with a missing
(falsy) or dangling module id contributes nothing; and
`check_architecture_violations` hands an active `layer_violation` rule to
exactly this check. -/
theorem C6_layer_violations :
    (∀ (db : DBState) (rule : RuleRec),
      (truthyOpt rule.source_module_id = false ∨ truthyOpt rule.target_module_id = false ∨
       find_module db (rule.source_module_id.getD 0) = none ∨
       find_module db (rule.target_module_id.getD 0) = none) →
      check_layer_violations db rule = []) ∧
    (∀ (db : DBState) (rule : RuleRec) (sm tm : ModuleRec),
      find_module db (rule.source_module_id.getD 0) = some sm →
      find_module db (rule.target_module_id.getD 0) = some tm →
      ¬ sm.layer < tm.layer →
      check_layer_violations db rule = []) ∧
    (∀ (db : DBState) (rule : RuleRec) (sm tm : ModuleRec),
      symIdNodup db →
      truthyOpt rule.source_module_id = true → truthyOpt rule.target_module_id = true →
      find_module db (rule.source_module_id.getD 0) = some sm →
      find_module db (rule.target_module_id.getD 0) = some tm →
      sm.layer < tm.layer →
      (check_layer_violations db rule).length =
        (db.references.filter (refHitsModules db sm.id tm.id)).length) ∧
    (∀ (db : DBState) (pid : Nat) (rule : RuleRec),
      db.rules.filter (fun r => r.project_id == pid && r.is_active) = [rule] →
      rule.rule_type = "layer_violation" →
      check_architecture_violations db pid = check_layer_violations db rule) := by
  refine ⟨?_, ?_, ?_, ?_⟩
  · intro db rule h
    unfold check_layer_violations
    by_cases hc : (!truthyOpt rule.source_module_id ||
        !truthyOpt rule.target_module_id) = true
    · rw [if_pos hc]
    · rw [if_neg hc]
      have hc2 : (!truthyOpt rule.source_module_id) = false ∧
          (!truthyOpt rule.target_module_id) = false := by
        have h0 := Bool.eq_false_iff.mpr hc
        rwa [Bool.or_eq_false_iff] at h0
      rcases h with h | h | h | h
      · rw [h] at hc2
        exact absurd hc2.1 (by simp)
      · rw [h] at hc2
        exact absurd hc2.2 (by simp)
      · rw [h]
      · rcases hfs : find_module db (rule.source_module_id.getD 0) with _ | sm <;>
          rw [h]
  · intro db rule sm tm hfs hft hlt
    unfold check_layer_violations
    by_cases hc : (!truthyOpt rule.source_module_id ||
        !truthyOpt rule.target_module_id) = true
    · rw [if_pos hc]
    · rw [if_neg hc]
      rw [hfs, hft]
      show (if sm.layer < tm.layer then _ else []) = []
      rw [if_neg hlt]
  · intro db rule sm tm hnd hts htt hfs hft hlt
    have hc : (!truthyOpt rule.source_module_id ||
        !truthyOpt rule.target_module_id) = false := by
      rw [hts, htt]
      rfl
    rw [check_layer_unfold db rule sm tm hc hfs hft, if_pos hlt, List.length_map]
    rw [layerViolationRows_length db hnd]
    apply congrArg
    apply List.filter_congr
    intro r _
    unfold refHitsModules
    rw [contains_module_ids db.files sm.id r.file_id]
    apply congrArg
    apply congrArg
    funext sy
    rw [contains_module_ids db.files tm.id sy.file_id]
  · intro db pid rule hflt hty
    unfold check_architecture_violations
    rw [hflt]
    rw [List.foldl_cons, List.foldl_nil]
    rw [if_pos (by simp [hty])]
    rw [List.nil_append]

/-- Witness for C6: the cross-layer reference of `archDB` yields exactly
one violation through `check_architecture_violations`. -/
theorem C6_witness :
    (check_layer_violations archDB ruleUp).length =
      (archDB.references.filter (refHitsModules archDB modCore.id modUi.id)).length ∧
    (check_architecture_violations archDB 1).length = 1 := by
  have h3 := C6_layer_violations.2.2.1 archDB ruleUp modCore modUi
    (by unfold symIdNodup; exact List.pairwise_singleton _ _)
    (by decide) (by decide) (by decide) (by decide) (by decide)
  have h4 := C6_layer_violations.2.2.2 archDB 1 ruleUp (by decide) rfl
  refine ⟨h3, ?_⟩
  rw [h4, h3]
  decide

/-- Kahn's algorithm emits a permutation of the remaining nodes. -/
theorem topoAux_perm :
    ∀ (fuel : Nat) (rem : List Nat) (edges : List (Nat × Nat)) (out : List Nat),
      topoAux fuel rem edges = some out → rem.Perm out := by
  intro fuel
  induction fuel with
  | zero =>
    intro rem edges out h
    cases rem with
    | nil =>
      unfold topoAux at h
      obtain rfl : [] = out := Option.some_inj.mp h
      exact List.Perm.refl _
    | cons a l =>
      simp [topoAux] at h
  | succ fuel ih =>
    intro rem edges out h
    cases rem with
    | nil =>
      unfold topoAux at h
      obtain rfl : [] = out := Option.some_inj.mp h
      exact List.Perm.refl _
    | cons a l =>
      unfold topoAux at h
      split at h
      · cases h
      · rename_i n hfind
        split at h
        · rename_i out' hrec
          obtain rfl : n :: out' = out := Option.some_inj.mp h
          have hn : n ∈ a :: l := List.mem_of_find?_eq_some hfind
          exact (List.perm_cons_erase hn).trans ((ih _ _ _ hrec).cons n)
        · cases h

/-- Kahn's algorithm respects the edges: the source of every surviving edge
is emitted strictly before its target. -/
theorem topoAux_precedes :
    ∀ (fuel : Nat) (rem : List Nat) (edges : List (Nat × Nat)) (out : List Nat),
      topoAux fuel rem edges = some out →
      ∀ u v : Nat, (u, v) ∈ edges → u ∈ rem → v ∈ rem → Precedes out u v := by
  intro fuel
  induction fuel with
  | zero =>
    intro rem edges out h u v he hu hv
    cases rem with
    | nil => exact absurd hu (List.not_mem_nil u)
    | cons a l => simp [topoAux] at h
  | succ fuel ih =>
    intro rem edges out h u v he hu hv
    cases rem with
    | nil => exact absurd hu (List.not_mem_nil u)
    | cons a l =>
      unfold topoAux at h
      split at h
      · cases h
      · rename_i n hfind
        split at h
        · rename_i out' hrec
          obtain rfl : n :: out' = out := Option.some_inj.mp h
          have hno := List.find?_some hfind
          have hvn : v ≠ n := by
            intro hvn
            have hall := List.all_eq_true.mp hno (u, v) he
            rw [hvn] at hall
            simp at hall
          have hv' : v ∈ (a :: l).erase n :=
            (List.mem_erase_of_ne hvn).mpr hv
          by_cases hun : u = n
          · have hvout : v ∈ out' := (topoAux_perm _ _ _ _ hrec).mem_iff.mp hv'
            rw [hun]
            exact List.cons_sublist_cons.mpr (List.singleton_sublist.mpr hvout)
          · have hu' : u ∈ (a :: l).erase n := (List.mem_erase_of_ne hun).mpr hu
            have he' : (u, v) ∈ edges.filter (fun e => e.1 != n) :=
              List.mem_filter.mpr ⟨he, by simpa using hun⟩
            exact (ih _ _ _ hrec u v he' hu' hv').cons n
        · cases h

/-- The levelization step appends exactly one binding. -/
theorem levelizeStep_eq (G : DiGraph) (L0 : List (Nat × Nat)) (a : Nat) :
    levelizeStep G L0 a = L0 ++ [(a,
      if (G.predecessors a).isEmpty then 0
      else ((G.predecessors a).map (fun p => lookupLayer L0 p)).foldl max 0 + 1)] :=
  rfl

/-- Looking a key up in an extended map sees the left bindings first. -/
theorem lookupLayer_append_left (l1 l2 : List (Nat × Nat)) (p : Nat)
    (h : p ∈ l1.map Prod.fst) :
    lookupLayer (l1 ++ l2) p = lookupLayer l1 p := by
  have hs : (l1.find? (fun e => e.1 == p)).isSome := by
    rw [List.find?_isSome]
    rcases List.mem_map.mp h with ⟨x, hx, hxe⟩
    exact ⟨x, hx, by simp [hxe]⟩
  rcases Option.isSome_iff_exists.mp hs with ⟨e, he⟩
  unfold lookupLayer
  rw [List.find?_append, he]
  rfl

/-- A binding appended for a fresh key is the one the lookup finds. -/
theorem lookupLayer_append_self (l : List (Nat × Nat)) (a v : Nat)
    (h : a ∉ l.map Prod.fst) :
    lookupLayer (l ++ [(a, v)]) a = v := by
  have hn : l.find? (fun e => e.1 == a) = none := by
    rw [List.find?_eq_none]
    intro x hx
    simp only [beq_iff_eq]
    intro hc
    exact h (List.mem_map.mpr ⟨x, hx, hc⟩)
  unfold lookupLayer
  rw [List.find?_append, hn]
  simp [List.find?]

/-- The keys produced by folding the levelization step are the initial keys
followed by the visited nodes, in order. -/
theorem levelize_fold_keys (G : DiGraph) :
    ∀ (rest : List Nat) (L0 : List (Nat × Nat)),
      (rest.foldl (levelizeStep G) L0).map Prod.fst = L0.map Prod.fst ++ rest := by
  intro rest
  induction rest with
  | nil => intro L0; simp
  | cons a l ih =>
    intro L0
    rw [List.foldl_cons, ih, levelizeStep_eq]
    simp

/-- Folding the levelization step never disturbs a binding already present. -/
theorem levelize_fold_stable (G : DiGraph) :
    ∀ (rest : List Nat) (L0 : List (Nat × Nat)) (p : Nat),
      p ∈ L0.map Prod.fst →
      lookupLayer (rest.foldl (levelizeStep G) L0) p = lookupLayer L0 p := by
  intro rest
  induction rest with
  | nil => intro L0 p _; rfl
  | cons a l ih =>
    intro L0 p hp
    rw [List.foldl_cons]
    have hp' : p ∈ (levelizeStep G L0 a).map Prod.fst := by
      rw [levelizeStep_eq]
      simp only [List.map_append]
      exact List.mem_append_left _ hp
    rw [ih _ p hp', levelizeStep_eq, lookupLayer_append_left _ _ _ hp]

/-- A two-element sublist of `a :: l` either starts at `a` (with the second
element in `l`) or lies entirely in `l`. -/
theorem precedes_cons_cases {a p m : Nat} {l : List Nat}
    (h : Precedes (a :: l) p m) : p = a ∧ m ∈ l ∨ Precedes l p m := by
  cases h with
  | cons _ h => exact Or.inr h
  | cons₂ _ h => exact Or.inl ⟨rfl, h.subset (by simp)⟩

/-- The layer recurrence of the acyclic levelization loop: when every
predecessor of a node is bound before the node is visited, the final map
satisfies `layer(n) = 0` without predecessors and
`1 + max(layer(p))` over the predecessors otherwise. -/
theorem levelize_fold_spec (G : DiGraph) :
    ∀ (rest : List Nat) (L0 : List (Nat × Nat)),
      (L0.map Prod.fst ++ rest).Nodup →
      (∀ n ∈ rest, ∀ p ∈ G.predecessors n,
        p ∈ L0.map Prod.fst ∨ Precedes rest p n) →
      ∀ n ∈ rest,
        lookupLayer (rest.foldl (levelizeStep G) L0) n =
          if (G.predecessors n).isEmpty then 0
          else ((G.predecessors n).map
            (fun p => lookupLayer (rest.foldl (levelizeStep G) L0) p)).foldl max 0 + 1 := by
  intro rest
  induction rest with
  | nil => intro L0 _ _ n hn; exact absurd hn (List.not_mem_nil n)
  | cons a l ih =>
    intro L0 hnd hpred n hn
    have hndl : (a :: l).Nodup := hnd.of_append_right
    have hal : a ∉ l := (List.nodup_cons.mp hndl).1
    have hdisj : (L0.map Prod.fst).Disjoint (a :: l) := (List.nodup_append.mp hnd).2.2
    have hkeys1 : (levelizeStep G L0 a).map Prod.fst = L0.map Prod.fst ++ [a] := by
      rw [levelizeStep_eq]
      simp
    rw [List.foldl_cons]
    have hstab0 : ∀ p, p ∈ L0.map Prod.fst →
        lookupLayer (l.foldl (levelizeStep G) (levelizeStep G L0 a)) p =
          lookupLayer L0 p := by
      intro p hp
      rw [levelize_fold_stable G l _ p (by rw [hkeys1]; exact List.mem_append_left _ hp),
        levelizeStep_eq, lookupLayer_append_left _ _ _ hp]
    rcases List.mem_cons.mp hn with rfl | hnl
    · have hna : n ∉ L0.map Prod.fst := fun hc => hdisj hc (List.mem_cons_self n l)
      have hlookA : lookupLayer (l.foldl (levelizeStep G) (levelizeStep G L0 n)) n =
          (if (G.predecessors n).isEmpty then 0
           else ((G.predecessors n).map (fun p => lookupLayer L0 p)).foldl max 0 + 1) := by
        rw [levelize_fold_stable G l _ n
            (by rw [hkeys1]; exact List.mem_append_right _ (by simp)),
          levelizeStep_eq, lookupLayer_append_self _ _ _ hna]
      have hmap : (G.predecessors n).map
            (fun p => lookupLayer (l.foldl (levelizeStep G) (levelizeStep G L0 n)) p)
          = (G.predecessors n).map (fun p => lookupLayer L0 p) := by
        apply List.map_congr_left
        intro p hp
        rcases hpred n (List.mem_cons_self n l) p hp with hkey | hprec
        · exact hstab0 p hkey
        · rcases precedes_cons_cases hprec with ⟨_, hmem⟩ | hrec
          · exact absurd hmem hal
          · exact absurd (hrec.subset (by simp)) hal
      rw [hlookA, hmap]
    · refine ih (levelizeStep G L0 a) ?_ ?_ n hnl
      · rw [hkeys1, List.append_assoc, List.singleton_append]
        exact hnd
      · intro m hm p hp
        rcases hpred m (List.mem_cons_of_mem a hm) p hp with hkey | hprec
        · exact Or.inl (by rw [hkeys1]; exact List.mem_append_left _ hkey)
        · rcases precedes_cons_cases hprec with ⟨rfl, _⟩ | hrec
          · exact Or.inl (by rw [hkeys1]; exact List.mem_append_right _ (by simp))
          · exact Or.inr hrec

/-- Membership in the model's predecessor list is edge membership. -/
theorem mem_predecessors (G : DiGraph) (m p : Nat) :
    p ∈ G.predecessors m ↔ (p, m) ∈ G.edges := by
  unfold DiGraph.predecessors
  constructor
  · intro h
    rcases List.mem_map.mp h with ⟨e, he, h1⟩
    rcases List.mem_filter.mp he with ⟨hee, h2⟩
    have : e = (p, m) := Prod.ext_iff.mpr ⟨h1, by simpa using h2⟩
    rwa [this] at hee
  · intro h
    exact List.mem_map.mpr ⟨(p, m), List.mem_filter.mpr ⟨h, by simp⟩, rfl⟩

/-- Adding a node keeps the edges. -/
theorem addNode_edges (G : DiGraph) (n : Nat) : (G.addNode n).edges = G.edges := by
  unfold DiGraph.addNode
  split <;> rfl

/-- Adding a node keeps the existing nodes. -/
theorem addNode_nodes_sub (G : DiGraph) (n : Nat) : G.nodes ⊆ (G.addNode n).nodes := by
  unfold DiGraph.addNode
  split
  · exact List.Subset.refl _
  · exact List.subset_append_left _ _

/-- The added node is a node. -/
theorem mem_addNode_self (G : DiGraph) (n : Nat) : n ∈ (G.addNode n).nodes := by
  unfold DiGraph.addNode
  split
  · rename_i h
    simpa using h
  · exact List.mem_append_right _ (by simp)

/-- `add_node` preserves graph well-formedness. -/
theorem addNode_wf (G : DiGraph) (n : Nat) (h : GraphWF G) : GraphWF (G.addNode n) := by
  unfold DiGraph.addNode
  split
  · exact h
  · rename_i hc
    refine ⟨?_, ?_⟩
    · rw [List.nodup_append]
      refine ⟨h.1, List.nodup_singleton n, ?_⟩
      intro x hx hxn
      rw [List.mem_singleton] at hxn
      subst hxn
      exact absurd (by simpa using hx) (by simpa using hc)
    · intro e he
      exact ⟨List.mem_append_left _ (h.2 e he).1, List.mem_append_left _ (h.2 e he).2⟩

/-- `add_edge` preserves graph well-formedness. -/
theorem addEdge_wf (G : DiGraph) (u v : Nat) (h : GraphWF G) : GraphWF (G.addEdge u v) := by
  have h2 : GraphWF ((G.addNode u).addNode v) := addNode_wf _ _ (addNode_wf _ _ h)
  have hu : u ∈ ((G.addNode u).addNode v).nodes :=
    addNode_nodes_sub _ _ (mem_addNode_self G u)
  have hv : v ∈ ((G.addNode u).addNode v).nodes := mem_addNode_self _ v
  simp only [DiGraph.addEdge]
  split
  · exact h2
  · refine ⟨h2.1, ?_⟩
    intro e he
    rcases List.mem_append.mp he with he' | he'
    · exact h2.2 e he'
    · rw [List.mem_singleton] at he'
      subst he'
      exact ⟨hu, hv⟩

/-- Folding a predicate-preserving step preserves the predicate. -/
theorem foldl_pres {α β : Type} (P : α → Prop) (f : α → β → α)
    (hstep : ∀ a b, P a → P (f a b)) :
    ∀ (l : List β) (a : α), P a → P (l.foldl f a) := by
  intro l
  induction l with
  | nil => intro a h; exact h
  | cons b l ih => intro a h; exact ih _ (hstep a b h)

/-- The include graph the analyzer builds is well formed: no duplicate
nodes, every edge endpoint a node. -/
theorem build_include_graph_wf (db : DBState) (root : String) :
    GraphWF (build_include_graph db root) := by
  have h0 : GraphWF { nodes := [], edges := [] } :=
    ⟨List.nodup_nil, fun e he => absurd he (List.not_mem_nil e)⟩
  have h1 : GraphWF ((get_project_files db root).foldl (fun G f => G.addNode f.id)
      { nodes := [], edges := [] }) :=
    foldl_pres GraphWF _ (fun G f hG => addNode_wf G f.id hG) _ _ h0
  exact foldl_pres GraphWF _
    (fun G i hG => by
      cases ht : i.target_file_id with
      | none => simpa [ht] using hG
      | some t => simpa [ht] using addEdge_wf G i.source_file_id t hG)
    _ _ h1

/-- C1 (corrected): the general recurrence of the spec holds — on an acyclic
include graph every node with no predecessors gets layer 0 and every other
node gets 1 + the maximum layer of its predecessors, edges directed
includer → included — but the concrete example is layered the other way
round: with B including A and C including B, the leaf A (included by
everyone) has predecessors and ends on layer 2, while C (including
everyone) has none and ends on layer 0. -/
theorem C1_levelization_amended :
    (compute_levelization levDB "/p" = [(3, 0), (2, 1), (1, 2)]) ∧
    ∀ (db : DBState) (root : String),
      is_directed_acyclic_graph (build_include_graph db root) = true →
      ∀ n ∈ (build_include_graph db root).nodes,
        lookupLayer (compute_levelization db root) n =
          if ((build_include_graph db root).predecessors n).isEmpty then 0
          else (((build_include_graph db root).predecessors n).map
            (fun p => lookupLayer (compute_levelization db root) p)).foldl max 0 + 1 := by
  constructor
  · decide
  · intro db root hacy n hn
    have hwf : GraphWF (build_include_graph db root) := build_include_graph_wf db root
    have hs : (topological_sort (build_include_graph db root)).isSome := hacy
    rcases Option.isSome_iff_exists.mp hs with ⟨order, hord⟩
    have hperm : (build_include_graph db root).nodes.Perm order :=
      topoAux_perm _ _ _ _ hord
    have hnodup : order.Nodup := hperm.nodup hwf.1
    have hlev : compute_levelization db root =
        order.foldl (levelizeStep (build_include_graph db root)) [] := by
      simp [compute_levelization, hacy, hord]
    rw [hlev]
    refine levelize_fold_spec _ order [] (by simpa using hnodup) ?_ n (hperm.mem_iff.mp hn)
    intro m _ p hp
    have he : (p, m) ∈ (build_include_graph db root).edges :=
      (mem_predecessors _ m p).mp hp
    exact Or.inr (topoAux_precedes _ _ _ _ hord p m he
      (hwf.2 _ he).1 (hwf.2 _ he).2)

/-- C1 counterexample: in the spec's own example (B includes A, C includes
B) the claimed layers A=0, B=1, C=2 are wrong — the code assigns A layer 2
and C layer 0, because the edges run includer → included, making the
leaf-most included file the one with predecessors. -/
theorem C1_counterexample :
    ¬ (lookupLayer (compute_levelization levDB "/p") 1 = 0 ∧
       lookupLayer (compute_levelization levDB "/p") 2 = 1 ∧
       lookupLayer (compute_levelization levDB "/p") 3 = 2) ∧
    lookupLayer (compute_levelization levDB "/p") 1 = 2 ∧
    lookupLayer (compute_levelization levDB "/p") 2 = 1 ∧
    lookupLayer (compute_levelization levDB "/p") 3 = 0 := by
  decide

/-- Witness for C1: the general recurrence applied at the concrete layering
store and node A (file id 1). -/
theorem C1_witness :
    is_directed_acyclic_graph (build_include_graph levDB "/p") = true ∧
    1 ∈ (build_include_graph levDB "/p").nodes ∧
    lookupLayer (compute_levelization levDB "/p") 1 =
      (if ((build_include_graph levDB "/p").predecessors 1).isEmpty then 0
       else (((build_include_graph levDB "/p").predecessors 1).map
         (fun p => lookupLayer (compute_levelization levDB "/p") p)).foldl max 0 + 1) :=
  ⟨by decide, by decide,
    C1_levelization_amended.2 levDB "/p" (by decide) 1 (by decide)⟩

/-- Successor-list membership is edge membership. -/
theorem mem_succList (edges : List (Nat × Nat)) (x y : Nat) :
    y ∈ succList edges x ↔ (x, y) ∈ edges := by
  unfold succList
  constructor
  · intro h
    rcases List.mem_map.mp h with ⟨e, he, h2⟩
    rcases List.mem_filter.mp he with ⟨hee, h1⟩
    have : e = (x, y) := Prod.ext_iff.mpr ⟨by simpa using h1, h2⟩
    rwa [this] at hee
  · intro h
    exact List.mem_map.mpr ⟨(x, y), List.mem_filter.mpr ⟨h, by simp⟩, rfl⟩

/-- Reachability is transitive. -/
theorem Reaches.trans {edges : List (Nat × Nat)} {a b c : Nat}
    (h1 : Reaches edges a b) (h2 : Reaches edges b c) : Reaches edges a c := by
  induction h2 with
  | refl => exact h1
  | tail _ he ih => exact Reaches.tail ih he

/-- The saturation step only adds vertices. -/
theorem closureStep_subset (edges : List (Nat × Nat)) (vs : List Nat) :
    vs ⊆ closureStep edges vs :=
  List.subset_append_left _ _

/-- Iterated saturation only adds vertices. -/
theorem closureN_subset (edges : List (Nat × Nat)) :
    ∀ (k : Nat) (vs : List Nat), vs ⊆ closureN edges k vs := by
  intro k
  induction k with
  | zero => intro vs; exact List.Subset.refl _
  | succ k ih =>
    intro vs
    exact (closureStep_subset edges vs).trans (ih (closureStep edges vs))

/-- A saturated set is a fixed point of the saturation step. -/
theorem closureStep_eq_of_saturated (edges : List (Nat × Nat)) (vs : List Nat)
    (h : Saturated edges vs) : closureStep edges vs = vs := by
  unfold closureStep
  have hnil : ((vs.flatMap (succList edges)).filter (fun m => !vs.contains m)) = [] := by
    rw [List.filter_eq_nil_iff]
    intro y hy
    rcases List.mem_flatMap.mp hy with ⟨x, hx, hsucc⟩
    simp [h x hx y hsucc]
  rw [hnil]
  simp

/-- A fixed point of the saturation step is saturated. -/
theorem saturated_of_closureStep_eq (edges : List (Nat × Nat)) (vs : List Nat)
    (h : closureStep edges vs = vs) : Saturated edges vs := by
  unfold closureStep at h
  have h0 : ((vs.flatMap (succList edges)).filter (fun m => !vs.contains m)).dedup = [] :=
    List.append_cancel_left (h.trans (List.append_nil vs).symm)
  have h1 : (vs.flatMap (succList edges)).filter (fun m => !vs.contains m) = [] :=
    (List.dedup_eq_nil _).mp h0
  intro x hx y hy
  have h2 := List.filter_eq_nil_iff.mp h1 y (List.mem_flatMap.mpr ⟨x, hx, hy⟩)
  simpa using h2

/-- Iterating from a fixed point stays put. -/
theorem closureN_fixed (edges : List (Nat × Nat)) (vs : List Nat)
    (h : closureStep edges vs = vs) : ∀ k, closureN edges k vs = vs := by
  intro k
  induction k with
  | zero => rfl
  | succ k ih =>
    show closureN edges k (closureStep edges vs) = vs
    rw [h]
    exact ih

/-- Everything in the saturation of a seed set is reachable from a seed. -/
theorem closureN_sound (edges : List (Nat × Nat)) :
    ∀ (k : Nat) (vs : List Nat) (b : Nat), b ∈ closureN edges k vs →
      ∃ a ∈ vs, Reaches edges a b := by
  intro k
  induction k with
  | zero => intro vs b hb; exact ⟨b, hb, Reaches.refl b⟩
  | succ k ih =>
    intro vs b hb
    rcases ih (closureStep edges vs) b hb with ⟨a, ha, hr⟩
    rcases List.mem_append.mp ha with ha' | ha'
    · exact ⟨a, ha', hr⟩
    · have ha3 := (List.mem_filter.mp (List.mem_dedup.mp ha')).1
      rcases List.mem_flatMap.mp ha3 with ⟨x, hx, hsucc⟩
      exact ⟨x, hx, Reaches.trans
        (Reaches.tail (Reaches.refl x) ((mem_succList edges x a).mp hsucc)) hr⟩

/-- The saturation step preserves duplicate-freedom. -/
theorem closureStep_nodup (edges : List (Nat × Nat)) (vs : List Nat)
    (h : vs.Nodup) : (closureStep edges vs).Nodup := by
  unfold closureStep
  rw [List.nodup_append]
  refine ⟨h, List.nodup_dedup _, ?_⟩
  intro x hx hxd
  have h2 := (List.mem_filter.mp (List.mem_dedup.mp hxd)).2
  simp [hx] at h2

/-- The saturation step stays inside any vertex set containing the seeds
and all edge targets. -/
theorem closureStep_bounded (edges : List (Nat × Nat)) (B vs : List Nat)
    (htgt : ∀ e ∈ edges, e.2 ∈ B) (hvs : vs ⊆ B) : closureStep edges vs ⊆ B := by
  intro y hy
  rcases List.mem_append.mp hy with h | h
  · exact hvs h
  · have h1 := (List.mem_filter.mp (List.mem_dedup.mp h)).1
    rcases List.mem_flatMap.mp h1 with ⟨x, hx, hsucc⟩
    exact htgt (x, y) ((mem_succList edges x y).mp hsucc)

/-- An unsaturated step strictly grows the set. -/
theorem closureStep_grow (edges : List (Nat × Nat)) (vs : List Nat)
    (h : closureStep edges vs ≠ vs) :
    vs.length + 1 ≤ (closureStep edges vs).length := by
  unfold closureStep at *
  rcases hl : ((vs.flatMap (succList edges)).filter (fun m => !vs.contains m)).dedup
    with _ | ⟨a, l⟩
  · exact absurd (by rw [hl]; simp) h
  · simp only [List.length_append, List.length_cons]
    omega

/-- Enough rounds saturate: starting from a duplicate-free seed inside a
finite vertex set closed over edge targets. -/
theorem closureN_saturated (edges : List (Nat × Nat)) (B : List Nat)
    (htgt : ∀ e ∈ edges, e.2 ∈ B) :
    ∀ (k : Nat) (vs : List Nat), vs.Nodup → vs ⊆ B →
      B.length + 1 ≤ k + vs.length → Saturated edges (closureN edges k vs) := by
  intro k
  induction k with
  | zero =>
    intro vs hnd hsub hlen
    exact absurd ((hnd.subperm hsub).length_le) (by omega)
  | succ k ih =>
    intro vs hnd hsub hlen
    by_cases hfix : closureStep edges vs = vs
    · show Saturated edges (closureN edges k (closureStep edges vs))
      rw [hfix, closureN_fixed edges vs hfix k]
      exact saturated_of_closureStep_eq edges vs hfix
    · show Saturated edges (closureN edges k (closureStep edges vs))
      refine ih (closureStep edges vs) (closureStep_nodup edges vs hnd)
        (closureStep_bounded edges B vs htgt hsub) ?_
      have hg := closureStep_grow edges vs hfix
      omega

/-- A saturated set is closed under reachability. -/
theorem saturated_closed (edges : List (Nat × Nat)) (vs : List Nat)
    (hs : Saturated edges vs) (a b : Nat) (ha : a ∈ vs)
    (h : Reaches edges a b) : b ∈ vs := by
  induction h with
  | refl => exact ha
  | tail _ he ih => exact hs _ ih _ ((mem_succList edges _ _).mpr he)

/-- On a well-formed graph the model's reachability test decides the
reflexive-transitive closure of the edge relation. -/
theorem reachable_iff (G : DiGraph) (hwf : GraphWF G) (a b : Nat)
    (ha : a ∈ G.nodes) :
    G.reachable a b = true ↔ Reaches G.edges a b := by
  unfold DiGraph.reachable
  constructor
  · intro h
    have hb : b ∈ closureN G.edges (G.nodes.length + 1) [a] := by simpa using h
    rcases closureN_sound G.edges _ _ _ hb with ⟨x, hx, hr⟩
    rw [List.mem_singleton] at hx
    rwa [hx] at hr
  · intro h
    have hsat : Saturated G.edges (closureN G.edges (G.nodes.length + 1) [a]) :=
      closureN_saturated G.edges G.nodes (fun e he => (hwf.2 e he).2)
        (G.nodes.length + 1) [a] (List.nodup_singleton a)
        (by intro x hx; rw [List.mem_singleton] at hx; rwa [hx])
        (by rw [List.length_singleton]; omega)
    have hb := saturated_closed G.edges _ hsat a b
      (closureN_subset G.edges (G.nodes.length + 1) [a] (List.mem_singleton_self a)) h
    simpa using hb

/-- Mutual reachability on a well-formed graph. -/
theorem mutualReach_iff (G : DiGraph) (hwf : GraphWF G) (a b : Nat)
    (ha : a ∈ G.nodes) (hb : b ∈ G.nodes) :
    G.mutualReach a b = true ↔ Reaches G.edges a b ∧ Reaches G.edges b a := by
  unfold DiGraph.mutualReach
  rw [Bool.and_eq_true, reachable_iff G hwf a b ha, reachable_iff G hwf b a hb]

/-- Membership in a model component. -/
theorem mem_sccOf_iff (G : DiGraph) (hwf : GraphWF G) (a b : Nat)
    (ha : a ∈ G.nodes) :
    b ∈ sccOf G a ↔ b ∈ G.nodes ∧ Reaches G.edges a b ∧ Reaches G.edges b a := by
  unfold sccOf
  rw [List.mem_filter]
  constructor
  · rintro ⟨hb, hm⟩
    exact ⟨hb, (mutualReach_iff G hwf a b ha hb).mp hm⟩
  · rintro ⟨hb, hm⟩
    exact ⟨hb, (mutualReach_iff G hwf a b ha hb).mpr hm⟩

/-- Every node lies in its own component. -/
theorem self_mem_sccOf (G : DiGraph) (hwf : GraphWF G) (a : Nat)
    (ha : a ∈ G.nodes) : a ∈ sccOf G a :=
  (mem_sccOf_iff G hwf a a ha).mpr ⟨ha, Reaches.refl a, Reaches.refl a⟩

/-- Mutually reachable nodes generate the same component, as lists. -/
theorem sccOf_congr (G : DiGraph) (hwf : GraphWF G) (a b : Nat)
    (ha : a ∈ G.nodes) (hb : b ∈ G.nodes)
    (hab : Reaches G.edges a b) (hba : Reaches G.edges b a) :
    sccOf G a = sccOf G b := by
  unfold sccOf
  apply List.filter_congr
  intro c hc
  rw [Bool.eq_iff_iff, mutualReach_iff G hwf a c ha hc, mutualReach_iff G hwf b c hb hc]
  constructor
  · rintro ⟨h1, h2⟩
    exact ⟨Reaches.trans hba h1, Reaches.trans h2 hab⟩
  · rintro ⟨h1, h2⟩
    exact ⟨Reaches.trans hab h1, Reaches.trans h2 hba⟩

/-- The component fold only appends groups. -/
theorem scc_fold_mono (G : DiGraph) :
    ∀ (l : List Nat) (acc : List (List Nat)),
      acc ⊆ l.foldl
        (fun acc n => if acc.any (fun c => c.contains n) then acc else acc ++ [sccOf G n])
        acc := by
  intro l
  induction l with
  | nil => intro acc; exact List.Subset.refl _
  | cons n l ih =>
    intro acc
    rw [List.foldl_cons]
    refine List.Subset.trans ?_ (ih _)
    split
    · exact List.Subset.refl _
    · exact List.subset_append_left _ _

/-- Every group the component fold emits is the component of some node. -/
theorem scc_fold_shape (G : DiGraph) :
    ∀ (l : List Nat) (acc : List (List Nat)),
      (∀ n ∈ l, n ∈ G.nodes) →
      (∀ g ∈ acc, ∃ a ∈ G.nodes, g = sccOf G a) →
      ∀ g ∈ l.foldl
        (fun acc n => if acc.any (fun c => c.contains n) then acc else acc ++ [sccOf G n])
        acc, ∃ a ∈ G.nodes, g = sccOf G a := by
  intro l
  induction l with
  | nil => intro acc _ hacc g hg; exact hacc g hg
  | cons n l ih =>
    intro acc hl hacc g hg
    rw [List.foldl_cons] at hg
    refine ih _ (fun m hm => hl m (List.mem_cons_of_mem n hm)) ?_ g hg
    intro g' hg'
    split at hg'
    · exact hacc g' hg'
    · rcases List.mem_append.mp hg' with h | h
      · exact hacc g' h
      · rw [List.mem_singleton] at h
        exact ⟨n, hl n (List.mem_cons_self n l), h⟩

/-- Every processed node ends up inside some emitted group. -/
theorem scc_fold_covers (G : DiGraph) (hwf : GraphWF G) :
    ∀ (l : List Nat) (acc : List (List Nat)),
      (∀ n ∈ l, n ∈ G.nodes) →
      ∀ m ∈ l, ∃ g ∈ l.foldl
        (fun acc n => if acc.any (fun c => c.contains n) then acc else acc ++ [sccOf G n])
        acc, m ∈ g := by
  intro l
  induction l with
  | nil => intro acc _ m hm; exact absurd hm (List.not_mem_nil m)
  | cons n l ih =>
    intro acc hl m hm
    rw [List.foldl_cons]
    rcases List.mem_cons.mp hm with rfl | hml
    · split
      · rename_i hc
        rcases List.any_eq_true.mp hc with ⟨g, hg, hgm⟩
        exact ⟨g, scc_fold_mono G l acc hg, by simpa using hgm⟩
      · exact ⟨sccOf G m, scc_fold_mono G l _ (List.mem_append_right _ (by simp)),
          self_mem_sccOf G hwf m (hl m (List.mem_cons_self m l))⟩
    · exact ih _ (fun x hx => hl x (List.mem_cons_of_mem n hx)) m hml

/-- The component fold never emits the same group twice. -/
theorem scc_fold_nodup (G : DiGraph) (hwf : GraphWF G) :
    ∀ (l : List Nat) (acc : List (List Nat)),
      (∀ n ∈ l, n ∈ G.nodes) → acc.Nodup →
      (l.foldl
        (fun acc n => if acc.any (fun c => c.contains n) then acc else acc ++ [sccOf G n])
        acc).Nodup := by
  intro l
  induction l with
  | nil => intro acc _ h; exact h
  | cons n l ih =>
    intro acc hl hacc
    rw [List.foldl_cons]
    refine ih _ (fun x hx => hl x (List.mem_cons_of_mem n hx)) ?_
    split
    · exact hacc
    · rename_i hc
      rw [List.nodup_append]
      refine ⟨hacc, List.nodup_singleton _, ?_⟩
      intro g hg hgs
      rw [List.mem_singleton] at hgs
      subst hgs
      have hn : n ∈ sccOf G n := self_mem_sccOf G hwf n (hl n (List.mem_cons_self n l))
      exact hc (List.any_eq_true.mpr ⟨sccOf G n, hg, by simpa using hn⟩)

/-- Two distinct members force at least two elements. -/
theorem one_lt_length_of_two_mem {g : List Nat} {n m : Nat}
    (hn : n ∈ g) (hm : m ∈ g) (hne : m ≠ n) : 1 < g.length := by
  cases g with
  | nil => exact absurd hn (List.not_mem_nil n)
  | cons a t =>
    cases t with
    | nil =>
      rw [List.mem_singleton] at hn hm
      exact absurd (hm.trans hn.symm) hne
    | cons b t2 =>
      simp only [List.length_cons]
      omega

/-- C5: detect_circular_dependencies returns exactly the strongly connected
components of the include graph with at least 2 members — every reported
group has more than one member, its members are pairwise mutually reachable
graph nodes, it is maximal (any node mutually reachable with a member is a
member), every node with a distinct mutual-reach partner appears in a
group, groups sharing an element are identical and no group is listed
twice; on the A→B→C→A cycle with unrelated D it returns exactly the one
group {A, B, C}. -/
theorem C5_circular_dependencies :
    (detect_circular_dependencies cycDB "/p" = [[1, 2, 3]]) ∧
    ∀ (db : DBState) (root : String),
      (∀ g ∈ detect_circular_dependencies db root, 1 < g.length) ∧
      (∀ g ∈ detect_circular_dependencies db root, ∀ x ∈ g,
        x ∈ (build_include_graph db root).nodes ∧
        ∀ y ∈ g, Reaches (build_include_graph db root).edges x y) ∧
      (∀ g ∈ detect_circular_dependencies db root, ∀ x ∈ g,
        ∀ y ∈ (build_include_graph db root).nodes,
          Reaches (build_include_graph db root).edges x y →
          Reaches (build_include_graph db root).edges y x → y ∈ g) ∧
      (∀ n ∈ (build_include_graph db root).nodes,
        ∀ m ∈ (build_include_graph db root).nodes, m ≠ n →
          Reaches (build_include_graph db root).edges n m →
          Reaches (build_include_graph db root).edges m n →
          ∃ g ∈ detect_circular_dependencies db root, n ∈ g) ∧
      (∀ g1 ∈ detect_circular_dependencies db root,
       ∀ g2 ∈ detect_circular_dependencies db root,
        ∀ x, x ∈ g1 → x ∈ g2 → g1 = g2) ∧
      (detect_circular_dependencies db root).Nodup := by
  constructor
  · decide
  · intro db root
    have hwf : GraphWF (build_include_graph db root) := build_include_graph_wf db root
    have hshape : ∀ g ∈ strongly_connected_components (build_include_graph db root),
        ∃ a ∈ (build_include_graph db root).nodes,
          g = sccOf (build_include_graph db root) a :=
      fun g hg => scc_fold_shape (build_include_graph db root)
        (build_include_graph db root).nodes [] (fun n hn => hn)
        (fun g' hg' => absurd hg' (List.not_mem_nil g')) g hg
    have hmemiff : ∀ g, g ∈ detect_circular_dependencies db root ↔
        g ∈ strongly_connected_components (build_include_graph db root) ∧ 1 < g.length := by
      intro g
      unfold detect_circular_dependencies
      rw [List.mem_filter]
      constructor
      · rintro ⟨h1, h2⟩
        exact ⟨h1, by simpa using h2⟩
      · rintro ⟨h1, h2⟩
        exact ⟨h1, by simpa using h2⟩
    refine ⟨?_, ?_, ?_, ?_, ?_, ?_⟩
    · intro g hg
      exact ((hmemiff g).mp hg).2
    · intro g hg x hx
      rcases hshape g ((hmemiff g).mp hg).1 with ⟨a, ha, rfl⟩
      rcases (mem_sccOf_iff _ hwf a x ha).mp hx with ⟨hxn, hax, hxa⟩
      refine ⟨hxn, ?_⟩
      intro y hy
      rcases (mem_sccOf_iff _ hwf a y ha).mp hy with ⟨_, hay, _⟩
      exact Reaches.trans hxa hay
    · intro g hg x hx y hyn hxy hyx
      rcases hshape g ((hmemiff g).mp hg).1 with ⟨a, ha, rfl⟩
      rcases (mem_sccOf_iff _ hwf a x ha).mp hx with ⟨_, hax, hxa⟩
      exact (mem_sccOf_iff _ hwf a y ha).mpr
        ⟨hyn, Reaches.trans hax hxy, Reaches.trans hyx hxa⟩
    · intro n hn m hm hne hnm hmn
      rcases scc_fold_covers (build_include_graph db root) hwf
          (build_include_graph db root).nodes [] (fun x hx => hx) n hn with ⟨g, hg, hng⟩
      have hgscc : g ∈ strongly_connected_components (build_include_graph db root) := hg
      rcases hshape g hgscc with ⟨a, ha, rfl⟩
      rcases (mem_sccOf_iff _ hwf a n ha).mp hng with ⟨_, han, hna⟩
      have hmg : m ∈ sccOf (build_include_graph db root) a :=
        (mem_sccOf_iff _ hwf a m ha).mpr
          ⟨hm, Reaches.trans han hnm, Reaches.trans hmn hna⟩
      exact ⟨_, (hmemiff _).mpr ⟨hgscc, one_lt_length_of_two_mem hng hmg hne⟩, hng⟩
    · intro g1 hg1 g2 hg2 x hx1 hx2
      rcases hshape g1 ((hmemiff g1).mp hg1).1 with ⟨a1, ha1, rfl⟩
      rcases hshape g2 ((hmemiff g2).mp hg2).1 with ⟨a2, ha2, rfl⟩
      rcases (mem_sccOf_iff _ hwf a1 x ha1).mp hx1 with ⟨hxn, h1x, hx1r⟩
      rcases (mem_sccOf_iff _ hwf a2 x ha2).mp hx2 with ⟨_, h2x, hx2r⟩
      rw [sccOf_congr _ hwf a1 x ha1 hxn h1x hx1r,
        sccOf_congr _ hwf a2 x ha2 hxn h2x hx2r]
    · exact List.Nodup.filter _
        (scc_fold_nodup (build_include_graph db root) hwf
          (build_include_graph db root).nodes [] (fun n hn => hn) List.nodup_nil)

/-- Witness for C5: the completeness part of the theorem applied at the
concrete cycle store, node A (id 1) and its mutual-reach partner B (id 2),
the reachability hypotheses discharged by explicit edge paths. -/
theorem C5_witness :
    1 ∈ (build_include_graph cycDB "/p").nodes ∧
    2 ∈ (build_include_graph cycDB "/p").nodes ∧
    (2 : Nat) ≠ 1 ∧
    Reaches (build_include_graph cycDB "/p").edges 1 2 ∧
    Reaches (build_include_graph cycDB "/p").edges 2 1 ∧
    ∃ g ∈ detect_circular_dependencies cycDB "/p", 1 ∈ g := by
  have h12 : Reaches (build_include_graph cycDB "/p").edges 1 2 :=
    Reaches.tail (Reaches.refl 1) (by decide)
  have h23 : Reaches (build_include_graph cycDB "/p").edges 2 3 :=
    Reaches.tail (Reaches.refl 2) (by decide)
  have h21 : Reaches (build_include_graph cycDB "/p").edges 2 1 :=
    Reaches.tail h23 (by decide)
  exact ⟨by decide, by decide, by decide, h12, h21,
    (C5_circular_dependencies.2 cycDB "/p").2.2.2.1 1 (by decide) 2 (by decide)
      (by decide) h12 h21⟩

/-- Witness for C4: the assignment-unfolding part of the theorem applied at
the concrete statement `x = y + 1;`, whose first child is the `x` reference
and whose remaining child is the `y + 1` subexpression. -/
theorem C4_witness :
    assignStmt.data.raises = false ∧
    assignStmt.data.kind = CKind.BINARY_OPERATOR ∧
    assignStmt.data.tokens.any (fun t => assignOps.contains t) = true ∧
    visit_node 1 "/p/m.c" (sessionOf emptyDB)
        (Node.mk assignStmt.data none none [refX, addExpr]) (some 1) false =
      (match visit_node 1 "/p/m.c" (sessionOf emptyDB) refX (some 1) true with
        | Except.ok s3 => visit_list 1 "/p/m.c" s3 [addExpr] (some 1) false
        | Except.error e => Except.error e) :=
  ⟨by decide, by decide, by decide,
    C4_write_classification.2.2 1 "/p/m.c" (sessionOf emptyDB) assignStmt.data
      none none refX [addExpr] (some 1) false (by decide) (Or.inl (by decide))
      (by decide)⟩
